import Mathlib

/-!
Shallow embedding of the froge service lifecycle orchestrator
(`src/index.ts`, `src/plug.ts`) for specification checking.

Modelling conventions:
* JS `Map<string, T>` insertion-ordered maps are association lists
  (`List (String × T)`); `Map.set` keeps the position of an existing key,
  `Map.delete` removes it (so delete-then-set moves the key to the end,
  exactly what `up` does when it overrides a plug).
* Plug objects are passed by reference in JS; here a plug is an index into
  a global store of indirection cells (`World.plugs`).  The cell stores the
  value written to `__startedService` (`none` models JS `undefined`).
* User-supplied start and stop functions are drawn from a small universe
  (`InitFn`, `DestroyFn`) covering the behaviours exercised by the package:
  synchronous returns, promises resolved by a `setTimeout` timer, `async`
  functions, plug factories, reads of other services through the context,
  and synchronous throws.  The integer lists are the `push` calls the test
  suite uses to observe realized start/stop order.
* The JS event loop is modelled deterministically: within one level in
  parallel mode every start function is invoked in declaration order
  (synchronous parts run immediately, exactly as an `async` function body
  runs until its first suspension), then pending completions are processed
  ordered by (microtask before timer, timer delay, initiation order).
  Sequential mode awaits each service fully before the next.
* Recursion into plugin sub-servers is bounded by explicit fuel; the JS
  original would not terminate on cyclic compositions either.
* `console.log` lines guarded by `verbose` are not modelled; the warning
  and error lines relevant to the shutdown controller go to
  `World.console`.  Process termination is modelled as a `ProcOutcome`.
-/

/-- Runtime values produced by service start functions.  `thunk v` models a
JS function `() => v` (the shape a plug override returns), `plugRef id`
models a plug object, which is shared by reference through the cell store. -/
inductive Value where
  | str (s : String)
  | num (n : Int)
  | plugRef (id : Nat)
  | thunk (v : Value)
deriving DecidableEq, Repr

/-- Matches the truthy `isFrogePlug` marker of `plug.ts`. -/
def Value.isFrogePlug : Value → Bool
  | .plugRef _ => true
  | _ => false

/-- Global mutable state outside the registry: the store of plug
indirection cells (key passed to `plug(key)`, current `__startedService`),
the observed start events, stop events, and relevant console lines. -/
structure World where
  plugs : List (Option String × Option Value) := []
  log : List Int := []
  stopLog : List Int := []
  console : List String := []
deriving DecidableEq, Repr

def World.pushLog (w : World) (ev : List Int) : World :=
  { w with log := w.log ++ ev }

def World.pushStop (w : World) (ev : List Int) : World :=
  { w with stopLog := w.stopLog ++ ev }

def World.pushConsole (w : World) (line : String) : World :=
  { w with console := w.console ++ [line] }

/-- Create a fresh unresolved plug cell, as `plug(key)` in `plug.ts` does;
returns the reference (index) to the shared cell. -/
def World.freshPlug (w : World) (key : Option String) : World × Nat :=
  ({ w with plugs := w.plugs ++ [(key, none)] }, w.plugs.length)

/-- Write the `__startedService` slot of cell `id` (the single indirection
cell all holders of the plug share). -/
def World.setCell (w : World) (id : Nat) (v : Option Value) : World :=
  match w.plugs.get? id with
  | some (k, _) => { w with plugs := w.plugs.set id (k, v) }
  | none => w

/-- Readiness getter of `plug.ts`: `typeof __startedService !== "undefined"`. -/
def plugIsReady (w : World) (id : Nat) : Bool :=
  match w.plugs.get? id with
  | some (_, some _) => true
  | _ => false

/-- Calling the plug (`plugResolver` in `plug.ts`): an unresolved cell
throws a descriptive error naming the service; a resolved cell calls the
stored value (`service()`), which succeeds when it is a function. -/
def derefPlug (w : World) (id : Nat) : Except String Value :=
  match w.plugs.get? id with
  | none => .error "invalid plug reference"
  | some (key, none) =>
      .error ("Trying to access uninitialized plug for service " ++ key.getD "undefined")
  | some (_, some (.thunk v)) => .ok v
  | some (_, some _) => .error "plug target is not a function"

/-! Association-list model of the insertion-ordered JS `Map`. -/

def mapGet {α : Type} : List (String × α) → String → Option α
  | [], _ => none
  | (k, v) :: rest, key => if k = key then some v else mapGet rest key

/-- `Map.set`: update in place when the key exists, append otherwise. -/
def mapSet {α : Type} : List (String × α) → String → α → List (String × α)
  | [], key, v => [(key, v)]
  | (k, x) :: rest, key, v =>
      if k = key then (k, v) :: rest else (k, x) :: mapSet rest key v

def mapDelete {α : Type} : List (String × α) → String → List (String × α)
  | [], _ => []
  | (k, x) :: rest, key =>
      if k = key then rest else (k, x) :: mapDelete rest key

def mapKeys {α : Type} (m : List (String × α)) : List String :=
  m.map Prod.fst

/-- Universe of user start functions passed to `up`.  The event lists are
the `push` calls observed by the tests.
* `sync ev v` — plain function: pushes `ev`, returns `v`.
* `timer d ev v` — returns `new Promise(resolve => setTimeout(..., d))`:
  nothing happens at invocation, at wake time `ev` is pushed and the
  promise resolves with `v`.
* `asyncFn ev v` — declared `async`: its body runs synchronously (pushing
  `ev`), the returned promise resolves with `v` on the microtask queue.
* `plugInit` — `ctx => ctx.plug()`: creates and returns a fresh plug.
* `readService dep ev` — pushes `ev`, then returns `ctx.services[dep]`
  (throwing whatever the accessor throws).
* `throws msg` — throws synchronously. -/
inductive InitFn where
  | sync (events : List Int) (ret : Value)
  | timer (delay : Nat) (events : List Int) (ret : Value)
  | asyncFn (events : List Int) (ret : Value)
  | plugInit
  | readService (dep : String) (events : List Int)
  | throws (msg : String)
deriving DecidableEq, Repr

/-- The `existing.init instanceof AsyncFunction` test of `up`: true exactly
for functions declared `async`. -/
def InitFn.isAsync : InitFn → Bool
  | .asyncFn _ _ => true
  | _ => false

/-- Universe of stop functions registered by `down`.
`slow d ev` models `async service => { push(ev); await sleep(d); }`. -/
inductive DestroyFn where
  | sync (events : List Int)
  | slow (delay : Nat) (events : List Int)
  | throws (msg : String)
deriving DecidableEq, Repr

/-- `FrogeConfig` of `index.ts`.  `gracefulShutdownTimeoutMs` is optional;
`none` (and `some 0`, both falsy in JS) count as unset. -/
structure FrogeConfig where
  parallelStartGroups : Bool := true
  parallelStopGroups : Bool := true
  gracefulShutdownTimeoutMs : Option Nat := none
  forceExitAfterShutdown : Bool := false
  verbose : Bool := true
deriving DecidableEq, Repr

/-- `ServiceContainer` of `index.ts`.  `value = none` models the absent /
`undefined` instance slot; `plug` holds the cell reference installed when
the entry was created by a plug override. -/
structure ServiceContainer where
  level : Int
  group : Option String := none
  up : Bool := false
  init : InitFn
  destroy : Option DestroyFn := none
  value : Option Value := none
  plug : Option Nat := none
  serverSymbol : Nat
deriving DecidableEq, Repr

mutual
/-- `FrogeServer` of `index.ts`: the registry map (insertion ordered), the
set of used group names, configuration, plugin bindings keyed by anchor
level, the running level counter, and the ownership symbol. -/
inductive FrogeServer where
  | mk (map : List (String × ServiceContainer)) (groups : List String)
      (config : FrogeConfig) (plugins : List (Int × List PluginContainer))
      (currentLevel : Int) (symbol : Nat)

/-- `PluginContainer` of `index.ts`.  The factory is modelled by the
sub-registry it produces (the `use(instance)` form wraps an instance into
a constant factory); `server` is the materialized sub-registry. -/
inductive PluginContainer where
  | mk (factory : FrogeServer) (pushConfig : Bool) (server : Option FrogeServer)
end

def FrogeServer.map : FrogeServer → List (String × ServiceContainer)
  | .mk m _ _ _ _ _ => m

def FrogeServer.groups : FrogeServer → List String
  | .mk _ g _ _ _ _ => g

def FrogeServer.config : FrogeServer → FrogeConfig
  | .mk _ _ c _ _ _ => c

def FrogeServer.plugins : FrogeServer → List (Int × List PluginContainer)
  | .mk _ _ _ p _ _ => p

def FrogeServer.currentLevel : FrogeServer → Int
  | .mk _ _ _ _ l _ => l

def FrogeServer.symbol : FrogeServer → Nat
  | .mk _ _ _ _ _ s => s

def FrogeServer.withMap (s : FrogeServer) (m : List (String × ServiceContainer)) : FrogeServer :=
  .mk m s.groups s.config s.plugins s.currentLevel s.symbol

def FrogeServer.withGroups (s : FrogeServer) (g : List String) : FrogeServer :=
  .mk s.map g s.config s.plugins s.currentLevel s.symbol

def FrogeServer.withConfig (s : FrogeServer) (c : FrogeConfig) : FrogeServer :=
  .mk s.map s.groups c s.plugins s.currentLevel s.symbol

def FrogeServer.withPlugins (s : FrogeServer) (p : List (Int × List PluginContainer)) : FrogeServer :=
  .mk s.map s.groups s.config p s.currentLevel s.symbol

def FrogeServer.withCurrentLevel (s : FrogeServer) (l : Int) : FrogeServer :=
  .mk s.map s.groups s.config s.plugins l s.symbol

def PluginContainer.factory : PluginContainer → FrogeServer
  | .mk f _ _ => f

def PluginContainer.pushConfig : PluginContainer → Bool
  | .mk _ p _ => p

def PluginContainer.server : PluginContainer → Option FrogeServer
  | .mk _ _ s => s

def PluginContainer.withServer (c : PluginContainer) (s : Option FrogeServer) : PluginContainer :=
  .mk c.factory c.pushConfig s

/-- `configure` of `index.ts`, applied with a full configuration object
(the shape used by `pushConfig`, which copies the host configuration). -/
def FrogeServer.configure (s : FrogeServer) (c : FrogeConfig) : FrogeServer :=
  s.withConfig c

/-- The fresh empty server built by `froge()`. -/
def froge (symbol : Nat) : FrogeServer :=
  .mk [] [] {} [] (-1) symbol

/-! ## The read accessor (the `services` Proxy of `index.ts`) -/

def accessMissingMsg (prop : String) : String :=
  "Cant access service " ++ prop ++ ", make sure it exists and started"

def accessNotStartedMsg (prop : String) : String :=
  "Cant access service " ++ prop ++ " before it was started"

/-- The `get` trap of the `services` proxy, over a registry map: an unknown
name throws; an entry carrying a plug returns the plug object itself; a
plugless entry that is not up throws; otherwise the stored value is
returned (`none` models JS `undefined`). -/
def mapAccess (m : List (String × ServiceContainer)) (prop : String) :
    Except String (Option Value) :=
  match mapGet m prop with
  | none => .error (accessMissingMsg prop)
  | some c =>
      match c.plug with
      | some id => .ok (some (.plugRef id))
      | none => if c.up then .ok c.value else .error (accessNotStartedMsg prop)

/-- `server.services[prop]`. -/
def FrogeServer.servicesGet (s : FrogeServer) (prop : String) :
    Except String (Option Value) :=
  mapAccess s.map prop

/-! ## `up`: registration and the plug-override dry run -/

/-- Classification of what `existing.init(plugContextMock)` does under the
restricted context whose only usable member is the plug factory. -/
inductive DryKind where
  | retPlug
  | retOther
  | threw (msg : String)
deriving DecidableEq, Repr

/-- Pure classification of an init function under the restricted mock
context (independent of the world). -/
def InitFn.dryKind : InitFn → DryKind
  | .sync _ _ => .retOther
  | .timer _ _ _ => .retOther
  | .asyncFn _ _ => .retOther
  | .plugInit => .retPlug
  | .readService _ _ => .threw "tried accessing ctx.services"
  | .throws m => .threw m

/-- Running `existing.init(plugContextMock)`: the world effects of the dry
invocation (events pushed by synchronous bodies, the fresh plug cell a plug
factory creates) together with the created plug reference, if any.  The
mock passes the bare `plug` function, so the cell records no service key
(JS interpolates `undefined`).  A `timer` init constructs a promise whose
executor only schedules a timeout, so nothing is observed synchronously. -/
def dryRun : InitFn → World → World × Option Nat
  | .sync ev _, w => (w.pushLog ev, none)
  | .timer _ _ _, w => (w, none)
  | .asyncFn ev _, w => (w.pushLog ev, none)
  | .plugInit, w => let p := w.freshPlug none; (p.1, some p.2)
  | .readService _ ev, w => (w.pushLog ev, none)
  | .throws _, w => (w, none)

def overrideBaseMsg (key : String) (group : Option String) : String :=
  "Trying to override existing service " ++ key ++ " from group "
    ++ group.getD "undefined"
    ++ ". Only plugs can be overridden. Function defining a plug must not be async and must only use ctx.plug() method."

def overrideAsyncMsg (key : String) (group : Option String) : String :=
  overrideBaseMsg key group ++ " Init function for " ++ key ++ " is async"

def overrideRaisedMsg (key : String) (group : Option String) (e : String) : String :=
  overrideBaseMsg key group ++ " Init function for " ++ key
    ++ " raised an error: " ++ e

def overrideNotPlugMsg (key : String) (group : Option String) : String :=
  overrideBaseMsg key group ++ " Init function for " ++ key
    ++ " didnt return a Froge plug"

def groupExistsMsg (g : String) : String :=
  "Group with key " ++ g ++ " already exists, trying to add new group with the same name"

/-- The body of the `for (const key in services)` loop of `up`: process the
new definitions in declaration order, threading the (partially mutated)
map and world; an override failure stops the loop and reports the error,
leaving the conflicting entry in place. -/
def upGo (sym : Nat) (level : Int) (group : Option String) :
    List (String × InitFn) → List (String × ServiceContainer) → World →
    List (String × ServiceContainer) × World × Option String
  | [], m, w => (m, w, none)
  | (key, init) :: rest, m, w =>
      match mapGet m key with
      | none =>
          upGo sym level group rest
            (mapSet m key
              { level := level, group := group, up := false, init := init,
                serverSymbol := sym })
            w
      | some existing =>
          if existing.init.isAsync then
            (m, w, some (overrideAsyncMsg key existing.group))
          else
            match existing.init.dryKind, dryRun existing.init w with
            | .threw e, (w', _) =>
                (m, w', some (overrideRaisedMsg key existing.group e))
            | .retOther, (w', _) =>
                (m, w', some (overrideNotPlugMsg key existing.group))
            | .retPlug, (w', id?) =>
                upGo sym level group rest
                  (mapSet (mapDelete m key) key
                    { level := level, group := group, up := false, init := init,
                      plug := id?, serverSymbol := sym })
                  w'

/-- `up(services, group?)`: duplicate group names fail before anything is
registered; otherwise the level counter is bumped and the definitions are
installed in order (overriding only plugs, per the dry run). -/
def FrogeServer.up (s : FrogeServer) (w : World) (defs : List (String × InitFn))
    (group : Option String) : FrogeServer × World × Option String :=
  match group with
  | some g =>
      if g ∈ s.groups then (s, w, some (groupExistsMsg g))
      else
        let level := s.currentLevel + 1
        let r := upGo s.symbol level group defs s.map w
        match r.2.2 with
        | some e => ((s.withCurrentLevel level).withMap r.1, r.2.1, some e)
        | none =>
            (((s.withCurrentLevel level).withMap r.1).withGroups (s.groups ++ [g]),
              r.2.1, none)
  | none =>
      let level := s.currentLevel + 1
      let r := upGo s.symbol level none defs s.map w
      ((s.withCurrentLevel level).withMap r.1, r.2.1, r.2.2)

def downUnknownMsg (key : String) : String :=
  "Trying to add destroyer to unknown service " ++ key

/-- The loop of `down(destroyers)`. -/
def downGo : List (String × DestroyFn) → List (String × ServiceContainer) →
    List (String × ServiceContainer) × Option String
  | [], m => (m, none)
  | (key, d) :: rest, m =>
      match mapGet m key with
      | none => (m, some (downUnknownMsg key))
      | some c => downGo rest (mapSet m key { c with destroy := some d })

/-- `down(destroyers)`: attach stop functions to existing names. -/
def FrogeServer.down (s : FrogeServer) (destroyers : List (String × DestroyFn)) :
    FrogeServer × Option String :=
  let r := downGo destroyers s.map
  (s.withMap r.1, r.2)

/-- Append a plugin container to the bucket of its anchor level (the
`plugins.has / push / set` logic of `use`). -/
def pluginsAdd (after : Int) (c : PluginContainer) :
    List (Int × List PluginContainer) → List (Int × List PluginContainer)
  | [] => [(after, [c])]
  | (l, cs) :: rest =>
      if l = after then (l, cs ++ [c]) :: rest else (l, cs) :: pluginsAdd after c rest

/-- `use(other, pushConfig)`: record a plugin binding anchored at the
current highest level; nothing is materialized yet. -/
def FrogeServer.use (s : FrogeServer) (other : FrogeServer)
    (pushConfig : Bool := true) : FrogeServer :=
  s.withPlugins (pluginsAdd s.currentLevel (.mk other pushConfig none) s.plugins)

/-! ## `startService` and the within-level scheduler

`startService` runs synchronously up to `await value` (the engine only
awaits when the init returned a promise), then finishes when that promise
settles.  In parallel mode `Promise.all(group.map(...))` invokes every
start function in declaration order and the pending completions are
processed microtasks first, then timers by delay, ties by initiation
order.  Sequential mode fully awaits each service before the next. -/

/-- The tail of `startService` once the produced value is known:
`container.value = v`, write the override plug cell (if any) with the
started value, `container.up = true`. -/
def completeStart (w : World) (c : ServiceContainer) (v : Value) :
    World × ServiceContainer :=
  let c' := { c with value := some v, up := true }
  match c.plug with
  | some id => (w.setCell id (some v), c')
  | none => (w, c')

/-- What one invocation of `startService` does before any suspension. -/
inductive StartOutcome where
  | done (c : ServiceContainer)
  | pend (tier : Nat) (delay : Nat) (events : List Int) (ret : Value)
  | fail (msg : String)

/-- Invoke `container.init` with the live context (the accessor reads the
current map `m`).  `tier 0` pendings are microtask resolutions (an `async`
function body already ran), `tier 1` pendings are timer resolutions. -/
def invokeStart (m : List (String × ServiceContainer)) (w : World)
    (key : String) (c : ServiceContainer) : World × StartOutcome :=
  match c.init with
  | .sync ev v =>
      let w1 := w.pushLog ev
      let r := completeStart w1 c v
      (r.1, .done r.2)
  | .timer d ev v => (w, .pend 1 d ev v)
  | .asyncFn ev v => (w.pushLog ev, .pend 0 0 [] v)
  | .plugInit =>
      let p := w.freshPlug (some key)
      let r := completeStart p.1 c (.plugRef p.2)
      (r.1, .done r.2)
  | .readService dep ev =>
      let w1 := w.pushLog ev
      match mapAccess m dep with
      | .error e => (w1, .fail e)
      | .ok v? =>
          let r := completeStart w1 c (v?.getD (.str "undefined"))
          (r.1, .done r.2)
  | .throws msg => (w, .fail msg)

/-- A suspended `startService` waiting for its promise to settle. -/
structure PendItem where
  idx : Nat
  tier : Nat
  delay : Nat
  events : List Int
  ret : Value
  key : String
deriving DecidableEq, Repr

/-- Completion order of pending promises: microtasks before timers, timers
by delay, ties by initiation order. -/
def pendLE (a b : PendItem) : Bool :=
  if a.tier ≠ b.tier then a.tier < b.tier
  else if a.delay ≠ b.delay then a.delay < b.delay
  else a.idx ≤ b.idx

def insertPend (p : PendItem) : List PendItem → List PendItem
  | [] => [p]
  | q :: rest => if pendLE p q then p :: q :: rest else q :: insertPend p rest

def sortPends : List PendItem → List PendItem
  | [] => []
  | p :: rest => insertPend p (sortPends rest)

/-- Parallel-mode invocation sweep: run every `startService` of the level
up to its first suspension, in declaration order; collect the pending
completions and the first synchronously raised error. -/
def startPhase1 (idx : Nat) :
    List String → List (String × ServiceContainer) → World →
    List (String × ServiceContainer) × World × List PendItem × Option String
  | [], m, w => (m, w, [], none)
  | k :: rest, m, w =>
      match mapGet m k with
      | none => startPhase1 (idx + 1) rest m w
      | some c =>
          if c.up then
            startPhase1 (idx + 1) rest m w
          else
            match invokeStart m w k c with
            | (w', .done c') =>
                startPhase1 (idx + 1) rest (mapSet m k c') w'
            | (w', .pend tier d ev v) =>
                let r := startPhase1 (idx + 1) rest m w'
                (r.1, r.2.1, ⟨idx, tier, d, ev, v, k⟩ :: r.2.2.1, r.2.2.2)
            | (w', .fail msg) =>
                let r := startPhase1 (idx + 1) rest m w'
                (r.1, r.2.1, r.2.2.1, some msg)

/-- Parallel-mode completion sweep: settle the pending promises in wake
order, finishing each suspended `startService`. -/
def startPhase2 : List PendItem → List (String × ServiceContainer) → World →
    List (String × ServiceContainer) × World
  | [], m, w => (m, w)
  | p :: rest, m, w =>
      let w1 := w.pushLog p.events
      match mapGet m p.key with
      | none => startPhase2 rest m w1
      | some c =>
          let r := completeStart w1 c p.ret
          startPhase2 rest (mapSet m p.key r.2) r.1

/-- `await Promise.all(group.map(entry => this.startService(...entry)))`. -/
def runStartLevelPar (ks : List String) (m : List (String × ServiceContainer))
    (w : World) : List (String × ServiceContainer) × World × Option String :=
  let r := startPhase1 0 ks m w
  let r2 := startPhase2 (sortPends r.2.2.1) r.1 r.2.1
  (r2.1, r2.2, r.2.2.2)

/-- Sequential mode: invoke and fully await each `startService` in
declaration order, aborting on the first failure. -/
def runStartLevelSeq : List String → List (String × ServiceContainer) → World →
    List (String × ServiceContainer) × World × Option String
  | [], m, w => (m, w, none)
  | k :: rest, m, w =>
      match mapGet m k with
      | none => runStartLevelSeq rest m w
      | some c =>
          if c.up then
            runStartLevelSeq rest m w
          else
            match invokeStart m w k c with
            | (w', .done c') => runStartLevelSeq rest (mapSet m k c') w'
            | (w', .pend _ _ ev v) =>
                let w2 := w'.pushLog ev
                let r := completeStart w2 c v
                runStartLevelSeq rest (mapSet m k r.2) r.1
            | (w', .fail msg) => (m, w', some msg)

def runStartLevel (par : Bool) (ks : List String)
    (m : List (String × ServiceContainer)) (w : World) :
    List (String × ServiceContainer) × World × Option String :=
  if par then runStartLevelPar ks m w else runStartLevelSeq ks m w

/-! ## `stopService` and the within-level stop scheduler -/

/-- The tail of `stopService` once the destroyer settled:
`container.value = undefined`, reset the plug cell, `container.up = false`. -/
def stopCleanup (w : World) (c : ServiceContainer) : World × ServiceContainer :=
  let c' := { c with value := none, up := false }
  match c.plug with
  | some id => (w.setCell id none, c')
  | none => (w, c')

/-- What one invocation of `stopService` does before any suspension.
A missing destroyer or a missing value is skipped silently. -/
inductive StopOutcome where
  | skip
  | done (c : ServiceContainer)
  | pend (delay : Nat)
  | fail (msg : String)

def invokeStop (w : World) (c : ServiceContainer) : World × StopOutcome :=
  match c.destroy, c.value with
  | none, _ => (w, .skip)
  | _, none => (w, .skip)
  | some d, some _ =>
      match d with
      | .sync ev =>
          let w1 := w.pushStop ev
          let r := stopCleanup w1 c
          (r.1, .done r.2)
      | .slow delay ev => (w.pushStop ev, .pend delay)
      | .throws msg => (w, .fail msg)

/-- A suspended `stopService` waiting for its destroyer to settle. -/
structure StopPend where
  idx : Nat
  delay : Nat
  key : String
deriving DecidableEq, Repr

def stopPendLE (a b : StopPend) : Bool :=
  if a.delay ≠ b.delay then a.delay < b.delay else a.idx ≤ b.idx

def insertStopPend (p : StopPend) : List StopPend → List StopPend
  | [] => [p]
  | q :: rest => if stopPendLE p q then p :: q :: rest else q :: insertStopPend p rest

def sortStopPends : List StopPend → List StopPend
  | [] => []
  | p :: rest => insertStopPend p (sortStopPends rest)

/-- Parallel-mode stop invocation sweep; also accumulates the level
duration (the slowest destroyer, since all run concurrently). -/
def stopPhase1 (idx : Nat) :
    List String → List (String × ServiceContainer) → World →
    List (String × ServiceContainer) × World × List StopPend × Option String × Nat
  | [], m, w => (m, w, [], none, 0)
  | k :: rest, m, w =>
      match mapGet m k with
      | none => stopPhase1 (idx + 1) rest m w
      | some c =>
          match invokeStop w c with
          | (w', .skip) => stopPhase1 (idx + 1) rest m w'
          | (w', .done c') => stopPhase1 (idx + 1) rest (mapSet m k c') w'
          | (w', .pend d) =>
              let r := stopPhase1 (idx + 1) rest m w'
              (r.1, r.2.1, ⟨idx, d, k⟩ :: r.2.2.1, r.2.2.2.1, max d r.2.2.2.2)
          | (w', .fail msg) =>
              let r := stopPhase1 (idx + 1) rest m w'
              (r.1, r.2.1, r.2.2.1, some msg, r.2.2.2.2)

/-- Parallel-mode stop completion sweep. -/
def stopPhase2 : List StopPend → List (String × ServiceContainer) → World →
    List (String × ServiceContainer) × World
  | [], m, w => (m, w)
  | p :: rest, m, w =>
      match mapGet m p.key with
      | none => stopPhase2 rest m w
      | some c =>
          let r := stopCleanup w c
          stopPhase2 rest (mapSet m p.key r.2) r.1

def runStopLevelPar (ks : List String) (m : List (String × ServiceContainer))
    (w : World) :
    List (String × ServiceContainer) × World × Option String × Nat :=
  let r := stopPhase1 0 ks m w
  let r2 := stopPhase2 (sortStopPends r.2.2.1) r.1 r.2.1
  (r2.1, r2.2, r.2.2.2.1, r.2.2.2.2)

/-- Sequential stop: each destroyer fully awaited; durations add up. -/
def runStopLevelSeq : List String → List (String × ServiceContainer) → World →
    List (String × ServiceContainer) × World × Option String × Nat
  | [], m, w => (m, w, none, 0)
  | k :: rest, m, w =>
      match mapGet m k with
      | none => runStopLevelSeq rest m w
      | some c =>
          match invokeStop w c with
          | (w', .skip) => runStopLevelSeq rest m w'
          | (w', .done c') => runStopLevelSeq rest (mapSet m k c') w'
          | (w', .pend d) =>
              let r := stopCleanup w' c
              let r2 := runStopLevelSeq rest (mapSet m k r.2) r.1
              (r2.1, r2.2.1, r2.2.2.1, d + r2.2.2.2)
          | (w', .fail msg) => (m, w', some msg, 0)

def runStopLevel (par : Bool) (ks : List String)
    (m : List (String × ServiceContainer)) (w : World) :
    List (String × ServiceContainer) × World × Option String × Nat :=
  if par then runStopLevelPar ks m w else runStopLevelSeq ks m w

/-! ## The traversal engine

`Map.groupBy(entries, level)` groups the (filtered) registry entries by
level, buckets ordered by first occurrence, entries appended in iteration
order.  Recursion into plugin sub-registries is bounded by fuel; every
call burns one unit, so any concrete run needs fuel linear in the size of
the composition. -/

def addToGroups (gs : List (Int × List String)) (lv : Int) (k : String) :
    List (Int × List String) :=
  match gs with
  | [] => [(lv, [k])]
  | (l, ks) :: rest =>
      if l = lv then (l, ks ++ [k]) :: rest else (l, ks) :: addToGroups rest lv k

def groupByLevel (entries : List (String × ServiceContainer)) :
    List (Int × List String) :=
  entries.foldl (fun gs kc => addToGroups gs kc.2.level kc.1) []

def pluginsGet : List (Int × List PluginContainer) → Int →
    Option (List PluginContainer)
  | [], _ => none
  | (l, cs) :: rest, lv => if l = lv then some cs else pluginsGet rest lv

def pluginsSet : List (Int × List PluginContainer) → Int →
    List PluginContainer → List (Int × List PluginContainer)
  | [], lv, cs => [(lv, cs)]
  | (l, cs0) :: rest, lv, cs =>
      if l = lv then (l, cs) :: rest else (l, cs0) :: pluginsSet rest lv cs

/-- First key of the sub-registry that collides with a host name (the
pre-merge scan of `startPlugins`). -/
def firstCollision (host : List (String × ServiceContainer)) :
    List (String × ServiceContainer) → Option String
  | [] => none
  | (k, _) :: rest =>
      if (mapGet host k).isSome then some k else firstCollision host rest

/-- Copy the started sub-registry entries into the host map. -/
def mergeInto (host sub : List (String × ServiceContainer)) :
    List (String × ServiceContainer) :=
  sub.foldl (fun acc kc => mapSet acc kc.1 kc.2) host

/-- Remove the sub-registry keys from the host map (stop-side unmerge). -/
def deleteAllFrom (host sub : List (String × ServiceContainer)) :
    List (String × ServiceContainer) :=
  sub.foldl (fun acc kc => mapDelete acc kc.1) host

def collisionMsg (k : String) : String :=
  "Plugin service " ++ k ++ " is conflicting with existing service " ++ k

def onlyMissingMsg (key : String) : String :=
  "Service " ++ key ++ " doesnt exist or is from a plugin"

def fuelMsg : String := "model out of fuel"

/-- The `key === target || typeof targetLevel === "undefined" ||
info.level < targetLevel` filter of `startInternal`. -/
def keepForStart (target : Option String) (targetLevel : Option Int)
    (kc : String × ServiceContainer) : Bool :=
  match target, targetLevel with
  | some t, some tl => kc.1 = t || kc.2.level < tl
  | _, _ => true

/-- The sub-registry a binding materializes: the factory product, with the
host configuration copied onto it when `pushConfig` is set. -/
def materializedSub (s : FrogeServer) (pc : PluginContainer) : FrogeServer :=
  if pc.pushConfig then pc.factory.configure s.config else pc.factory

mutual

/-- `start()`. -/
def startF : Nat → FrogeServer → World → FrogeServer × World × Option String
  | 0, s, w => (s, w, some fuelMsg)
  | fuel + 1, s, w => startInternalF fuel s w none

/-- `only(key)`. -/
def onlyF : Nat → FrogeServer → World → String →
    FrogeServer × World × Except String (Option Value)
  | 0, s, w, _ => (s, w, .error fuelMsg)
  | fuel + 1, s, w, key =>
      match mapGet s.map key with
      | none => (s, w, .error (onlyMissingMsg key))
      | some info =>
          if info.up then (s, w, s.servicesGet key)
          else
            match startInternalF fuel s w (some key) with
            | (s', w', some e) => (s', w', .error e)
            | (s', w', none) => (s', w', s'.servicesGet key)

/-- `startInternal(target?)`: snapshot the level groups (bounded to levels
below the target, plus the target itself), merge the level `-1` plugins,
then walk the levels. -/
def startInternalF : Nat → FrogeServer → World → Option String →
    FrogeServer × World × Option String
  | 0, s, w, _ => (s, w, some fuelMsg)
  | fuel + 1, s, w, target =>
      let targetLevel := target.bind fun t => (mapGet s.map t).map (·.level)
      let groups := groupByLevel (s.map.filter (keepForStart target targetLevel))
      match startPluginsF fuel s w (-1) with
      | (s1, w1, some e) => (s1, w1, some e)
      | (s1, w1, none) => startLevelsGo fuel s1 w1 groups targetLevel

/-- The per-level loop of `startInternal`: run the level, then (unless it
is the target level) merge the plugins anchored there. -/
def startLevelsGo : Nat → FrogeServer → World → List (Int × List String) →
    Option Int → FrogeServer × World × Option String
  | 0, s, w, _, _ => (s, w, some fuelMsg)
  | _ + 1, s, w, [], _ => (s, w, none)
  | fuel + 1, s, w, (lv, ks) :: rest, tl =>
      let r := runStartLevel s.config.parallelStartGroups ks s.map w
      let s' := s.withMap r.1
      match r.2.2 with
      | some e => (s', r.2.1, some e)
      | none =>
          if tl = some lv then startLevelsGo fuel s' r.2.1 rest tl
          else
            match startPluginsF fuel s' r.2.1 lv with
            | (s2, w2, some e) => (s2, w2, some e)
            | (s2, w2, none) => startLevelsGo fuel s2 w2 rest tl

/-- `startPlugins(level)`: materialize and start, in bind order, every
plugin anchored at `level` that is not materialized yet. -/
def startPluginsF : Nat → FrogeServer → World → Int →
    FrogeServer × World × Option String
  | 0, s, w, _ => (s, w, some fuelMsg)
  | fuel + 1, s, w, level =>
      match pluginsGet s.plugins level with
      | none => (s, w, none)
      | some bucket =>
          match startPluginsGo fuel s w bucket with
          | (s1, w1, bucket', e?) =>
              (s1.withPlugins (pluginsSet s1.plugins level bucket'), w1, e?)

def startPluginsGo : Nat → FrogeServer → World → List PluginContainer →
    FrogeServer × World × List PluginContainer × Option String
  | 0, s, w, cs => (s, w, cs, some fuelMsg)
  | _ + 1, s, w, [] => (s, w, [], none)
  | fuel + 1, s, w, pc :: rest =>
      match startOnePlugin fuel s w pc with
      | (s1, w1, pc', some e) => (s1, w1, pc' :: rest, some e)
      | (s1, w1, pc', none) =>
          match startPluginsGo fuel s1 w1 rest with
          | (s2, w2, rest', e?) => (s2, w2, pc' :: rest', e?)

/-- One iteration of the `startPlugins` loop: an already materialized
binding is skipped; otherwise the factory product is configured (when
`pushConfig`), every sub-registry key is checked against the host names,
the sub-registry is started, and its entries are copied into the host. -/
def startOnePlugin : Nat → FrogeServer → World → PluginContainer →
    FrogeServer × World × PluginContainer × Option String
  | 0, s, w, pc => (s, w, pc, some fuelMsg)
  | fuel + 1, s, w, pc =>
      match pc.server with
      | some _ => (s, w, pc, none)
      | none =>
          let sub0 := materializedSub s pc
          match firstCollision s.map sub0.map with
          | some k => (s, w, pc.withServer (some sub0), some (collisionMsg k))
          | none =>
              match startF fuel sub0 w with
              | (sub1, w1, some e) => (s, w1, pc.withServer (some sub1), some e)
              | (sub1, w1, none) =>
                  (s.withMap (mergeInto s.map sub1.map), w1,
                    pc.withServer (some sub1), none)

/-- `stop(reason?)`: walk the owned entries in reverse declaration order,
level by level, tearing down the plugins anchored at each level first,
and finally the level `-1` plugins.  The last component is the modelled
duration of the whole stop, used by the shutdown deadline race. -/
def stopF : Nat → FrogeServer → World → FrogeServer × World × Option String × Nat
  | 0, s, w => (s, w, some fuelMsg, 0)
  | fuel + 1, s, w =>
      let own := (s.map.filter fun kc => kc.2.serverSymbol = s.symbol).reverse
      let groups := groupByLevel own
      match stopLevelsGo fuel s w groups with
      | (s1, w1, some e, dur) => (s1, w1, some e, dur)
      | (s1, w1, none, dur) =>
          match stopPluginsF fuel s1 w1 (-1) with
          | (s2, w2, e?, dur2) => (s2, w2, e?, dur + dur2)

def stopLevelsGo : Nat → FrogeServer → World → List (Int × List String) →
    FrogeServer × World × Option String × Nat
  | 0, s, w, _ => (s, w, some fuelMsg, 0)
  | _ + 1, s, w, [] => (s, w, none, 0)
  | fuel + 1, s, w, (lv, ks) :: rest =>
      match stopPluginsF fuel s w lv with
      | (s1, w1, some e, dur) => (s1, w1, some e, dur)
      | (s1, w1, none, dur) =>
          let r := runStopLevel s1.config.parallelStopGroups ks s1.map w1
          let s2 := s1.withMap r.1
          match r.2.2.1 with
          | some e => (s2, r.2.1, some e, dur + r.2.2.2)
          | none =>
              match stopLevelsGo fuel s2 r.2.1 rest with
              | (s3, w3, e?, dur3) => (s3, w3, e?, dur + r.2.2.2 + dur3)

/-- `stopPlugins(level)`: tear down the bindings anchored at `level` in
reverse bind order, removing their entries from the host map. -/
def stopPluginsF : Nat → FrogeServer → World → Int →
    FrogeServer × World × Option String × Nat
  | 0, s, w, _ => (s, w, some fuelMsg, 0)
  | fuel + 1, s, w, level =>
      match pluginsGet s.plugins level with
      | none => (s, w, none, 0)
      | some bucket =>
          match stopPluginsGo fuel s w bucket.reverse with
          | (s1, w1, rbucket', e?, dur) =>
              (s1.withPlugins (pluginsSet s1.plugins level rbucket'.reverse),
                w1, e?, dur)

def stopPluginsGo : Nat → FrogeServer → World → List PluginContainer →
    FrogeServer × World × List PluginContainer × Option String × Nat
  | 0, s, w, cs => (s, w, cs, some fuelMsg, 0)
  | _ + 1, s, w, [] => (s, w, [], none, 0)
  | fuel + 1, s, w, pc :: rest =>
      match stopOnePlugin fuel s w pc with
      | (s1, w1, pc', some e, dur) => (s1, w1, pc' :: rest, some e, dur)
      | (s1, w1, pc', none, dur) =>
          match stopPluginsGo fuel s1 w1 rest with
          | (s2, w2, rest', e?, dur2) => (s2, w2, pc' :: rest', e?, dur + dur2)

/-- One iteration of the `stopPlugins` loop: a binding that was never
materialized is skipped; otherwise the sub-registry is stopped through its
own `stop()`, its keys are removed from the host map, and the binding is
reset so a later start rebuilds it. -/
def stopOnePlugin : Nat → FrogeServer → World → PluginContainer →
    FrogeServer × World × PluginContainer × Option String × Nat
  | 0, s, w, pc => (s, w, pc, some fuelMsg, 0)
  | fuel + 1, s, w, pc =>
      match pc.server with
      | none => (s, w, pc, none, 0)
      | some sub =>
          match stopF fuel sub w with
          | (sub1, w1, some e, dur) => (s, w1, pc.withServer (some sub1), some e, dur)
          | (sub1, w1, none, dur) =>
              (s.withMap (deleteAllFrom s.map sub1.map), w1,
                pc.withServer none, none, dur)

end

/-! ## The shutdown controller (`launch` / `shutdown`)

Real time is modelled by the computed duration of `stop()`; the deadline
timer fires first exactly when that duration exceeds the configured grace
period, in which case the process is terminated with a non-zero status
while the outstanding stop functions are abandoned.  Signal subscription
is not modelled. -/

/-- Whether the process returned to the caller or was terminated. -/
inductive ProcOutcome where
  | running
  | exited (code : Nat)
deriving DecidableEq, Repr

def defaultGraceWarning : String :=
  "gracefulShutdownTimeoutMs config option not set, fallback to 60 sec"

def timeoutKillMsg (ms : Nat) : String :=
  "Reached shutdown timeout " ++ toString ms ++ "ms, killing..."

def shutdownIncompleteMsg : String := "Shutdown incomplete, killing..."

def failedStartMsg : String := "Failed to start: "

/-- JS truthiness of `config.gracefulShutdownTimeoutMs` (unset and `0` are
both falsy). -/
def graceIsSet (c : FrogeConfig) : Bool :=
  c.gracefulShutdownTimeoutMs.getD 0 ≠ 0

/-- `shutdown(reason?)`: a deadline timer is armed only when the grace
period is configured (truthy); `stop()` races it.  Deadline first →
timeout line and exit 1; `stop()` throws → incomplete line and exit 1;
clean stop → exit 0 when `forceExitAfterShutdown`, else return. -/
def shutdownF : Nat → FrogeServer → World → FrogeServer × World × ProcOutcome
  | 0, s, w => (s, w, .exited 1)
  | fuel + 1, s, w =>
      let grace := s.config.gracefulShutdownTimeoutMs.getD 0
      match stopF fuel s w with
      | (s', w', e?, dur) =>
          if graceIsSet s.config ∧ grace < dur then
            (s', w'.pushConsole (timeoutKillMsg grace), .exited 1)
          else
            match e? with
            | some _ => (s', w'.pushConsole shutdownIncompleteMsg, .exited 1)
            | none =>
                if s'.config.forceExitAfterShutdown then (s', w', .exited 0)
                else (s', w', .running)

/-- The default-grace fallback at the top of `launch()`: when the option
is falsy the default 60000 ms is installed and the warning logged. -/
def applyDefaultGrace (s : FrogeServer) (w : World) : FrogeServer × World :=
  if graceIsSet s.config then (s, w)
  else (s.withConfig { s.config with gracefulShutdownTimeoutMs := some 60000 },
    w.pushConsole defaultGraceWarning)

/-- `launch()`: apply the default grace period (with a warning) when it is
unset, run `start()`; on failure log it and run `shutdown` as cleanup. -/
def launchF : Nat → FrogeServer → World → FrogeServer × World × ProcOutcome
  | 0, s, w => (s, w, .exited 1)
  | fuel + 1, s, w =>
      let r := applyDefaultGrace s w
      match startF fuel r.1 r.2 with
      | (s1, w1, none) => (s1, w1, .running)
      | (s1, w1, some e) => shutdownF fuel s1 (w1.pushConsole (failedStartMsg ++ e))

/-! ## Concrete scenarios (the reference graphs of the test suite) -/

def w0 : World := {}

/-- Levels L0 = (test1: promise resolving after 50 ms pushing 1,
test2: synchronous pushing 2), L1 = (test3: reads test1 pushing 3,
test4: synchronous pushing 4), with a synchronous destroyer for each. -/
def refServer (cfg : FrogeConfig) : FrogeServer :=
  let r1 := ((froge 0).configure cfg).up w0
    [("test1", .timer 50 [1] (.str "test1")),
     ("test2", .sync [2] (.str "test2"))] none
  let r2 := r1.1.up r1.2.1
    [("test3", .readService "test1" [3]),
     ("test4", .sync [4] (.str "test4"))] none
  (r2.1.down
    [("test1", .sync [1]), ("test2", .sync [2]),
     ("test3", .sync [3]), ("test4", .sync [4])]).1

def refServerPar : FrogeServer := refServer { verbose := false }

def refServerSeq : FrogeServer :=
  refServer { verbose := false, parallelStartGroups := false, parallelStopGroups := false }

/-- The plugin of the plugin test: two services (11, 12) at two levels. -/
def pluginC4 : FrogeServer :=
  let r1 := (froge 1).up w0 [("pluginService1", .sync [11] (.str "pluginService1"))] none
  let r2 := r1.1.up r1.2.1 [("pluginService2", .sync [12] (.str "pluginService2"))] none
  (r2.1.down
    [("pluginService1", .sync [11]), ("pluginService2", .sync [12])]).1

/-- The host of the plugin test: the reference graph with `pluginC4`
bound between L0 and L1. -/
def hostC4 : FrogeServer :=
  let r1 := ((froge 0).configure { verbose := false }).up w0
    [("test1", .timer 50 [1] (.str "test1")),
     ("test2", .sync [2] (.str "test2"))] none
  let s1 := r1.1.use pluginC4
  let r2 := s1.up r1.2.1
    [("test3", .readService "test1" [3]),
     ("test4", .sync [4] (.str "test4"))] none
  (r2.1.down
    [("test1", .sync [1]), ("test2", .sync [2]),
     ("test3", .sync [3]), ("test4", .sync [4])]).1

/-- The bounded-start test graph: the reference graph plus a third level
(test5), so that `only` has something above the target to leave alone. -/
def onlyServer : FrogeServer :=
  let r1 := ((froge 0).configure { verbose := false }).up w0
    [("test1", .timer 50 [1] (.str "test1")),
     ("test2", .sync [2] (.str "test2"))] none
  let r2 := r1.1.up r1.2.1
    [("test3", .readService "test1" [3]),
     ("test4", .sync [4] (.str "test4"))] none
  let r3 := r2.1.up r2.2.1 [("test5", .sync [5] (.str "test5"))] none
  (r3.1.down
    [("test1", .sync [1]), ("test2", .sync [2]),
     ("test3", .sync [3]), ("test4", .sync [4]), ("test5", .sync [5])]).1

/-- Two-level plugin pushing 11/12. -/
def pluginA : FrogeServer :=
  let r1 := (froge 1).up w0 [("pluginService1", .sync [11] (.str "p1"))] none
  let r2 := r1.1.up r1.2.1 [("pluginService2", .sync [12] (.str "p2"))] none
  (r2.1.down [("pluginService1", .sync [11]), ("pluginService2", .sync [12])]).1

/-- Two-level plugin pushing 13/14. -/
def pluginB : FrogeServer :=
  let r1 := (froge 2).up w0 [("pluginService3", .sync [13] (.str "p3"))] none
  let r2 := r1.1.up r1.2.1 [("pluginService4", .sync [14] (.str "p4"))] none
  (r2.1.down [("pluginService3", .sync [13]), ("pluginService4", .sync [14])]).1

/-- A host made only of two plugins bound in order A then B. -/
def composedServer : FrogeServer :=
  (((froge 0).configure { verbose := false }).use pluginA).use pluginB

def hostC4Started : FrogeServer × World × Option String := startF 40 hostC4 w0

def hostC4Stopped : FrogeServer × World × Option String × Nat :=
  stopF 40 hostC4Started.1 hostC4Started.2.1

def composedStarted : FrogeServer × World × Option String := startF 40 composedServer w0

/-! ## Association-map lemmas -/

theorem mapGet_mapSet_self {α : Type} (m : List (String × α)) (k : String) (v : α) :
    mapGet (mapSet m k v) k = some v := by
  induction m with
  | nil => simp [mapGet, mapSet]
  | cons kv rest ih =>
      by_cases h : kv.1 = k
      · simp [mapGet, mapSet, h]
      · simpa [mapGet, mapSet, h] using ih

theorem mapGet_mapSet_ne {α : Type} (m : List (String × α)) (k k' : String) (v : α)
    (h : k' ≠ k) : mapGet (mapSet m k v) k' = mapGet m k' := by
  induction m with
  | nil => simp [mapGet, mapSet, Ne.symm h]
  | cons kv rest ih =>
      by_cases h1 : kv.1 = k
      · subst h1
        simp [mapGet, mapSet, Ne.symm h]
      · by_cases h2 : kv.1 = k'
        · simp [mapGet, mapSet, h1, h2, h]
        · simpa [mapGet, mapSet, h1, h2] using ih

theorem mapGet_mapDelete_ne {α : Type} (m : List (String × α)) (k k' : String)
    (h : k' ≠ k) : mapGet (mapDelete m k) k' = mapGet m k' := by
  induction m with
  | nil => simp [mapDelete]
  | cons kv rest ih =>
      by_cases h1 : kv.1 = k
      · subst h1
        simp [mapGet, mapDelete, Ne.symm h]
      · by_cases h2 : kv.1 = k'
        · simp [mapGet, mapDelete, h1, h2, h]
        · simpa [mapGet, mapDelete, h1, h2] using ih

/-! ## Realized event sequences of user functions -/

/-- Every event a start function eventually pushes, invocation plus
completion, in order. -/
def InitFn.allEvents : InitFn → List Int
  | .sync ev _ => ev
  | .timer _ ev _ => ev
  | .asyncFn ev _ => ev
  | .plugInit => []
  | .readService _ ev => ev
  | .throws _ => []

/-- Start functions that always succeed without consulting the context. -/
def InitFn.selfContained : InitFn → Bool
  | .sync _ _ => true
  | .timer _ _ _ => true
  | .asyncFn _ _ => true
  | .plugInit => true
  | .readService _ _ => false
  | .throws _ => false

def eventsOfInit (m : List (String × ServiceContainer)) (k : String) : List Int :=
  match mapGet m k with
  | some c => c.init.allEvents
  | none => []

theorem World.setCell_log (w : World) (id : Nat) (v : Option Value) :
    (w.setCell id v).log = w.log := by
  simp only [World.setCell]
  split <;> rfl

theorem World.setCell_stopLog (w : World) (id : Nat) (v : Option Value) :
    (w.setCell id v).stopLog = w.stopLog := by
  simp only [World.setCell]
  split <;> rfl

theorem completeStart_log (w : World) (c : ServiceContainer) (v : Value) :
    (completeStart w c v).1.log = w.log := by
  simp only [completeStart]
  split <;> simp [World.setCell_log]

theorem completeStart_container (w : World) (c : ServiceContainer) (v : Value) :
    (completeStart w c v).2 = { c with value := some v, up := true } := by
  simp only [completeStart]
  split <;> rfl

/-- Decidable readiness of an entry for the sequential-order lemma: the
entry exists, is not yet up, and its init is self-contained. -/
def startReadyB (m : List (String × ServiceContainer)) (k : String) : Bool :=
  match mapGet m k with
  | some c => !c.up && c.init.selfContained
  | none => false

/-- Concatenation of the events of the named entries, in order. -/
def seqEvents (m : List (String × ServiceContainer)) : List String → List Int
  | [] => []
  | k :: rest => eventsOfInit m k ++ seqEvents m rest

theorem seqEvents_mapSet (m : List (String × ServiceContainer)) (k : String)
    (c : ServiceContainer) (ks : List String) (hk : k ∉ ks) :
    seqEvents (mapSet m k c) ks = seqEvents m ks := by
  induction ks with
  | nil => rfl
  | cons k' rest ih =>
      have hne : k' ≠ k := by
        intro h
        exact hk (h ▸ List.mem_cons_self k' rest)
      simp only [seqEvents, eventsOfInit, mapGet_mapSet_ne m k k' c hne]
      rw [ih (fun h => hk (List.mem_cons_of_mem _ h))]

theorem World.freshPlug_log (w : World) (k : Option String) :
    (w.freshPlug k).1.log = w.log := rfl

/-- Sequential mode within a level: each start function is invoked and
fully awaited in strict declaration order, so the realized event log is
the concatenation of each entry log in declaration order. -/
theorem runStartLevelSeq_log (ks : List String) (m : List (String × ServiceContainer))
    (w : World) (hnd : ks.Nodup) (h : ∀ k ∈ ks, startReadyB m k = true) :
    (runStartLevelSeq ks m w).2.1.log = w.log ++ seqEvents m ks := by
  induction ks generalizing m w with
  | nil => simp [runStartLevelSeq, seqEvents]
  | cons k rest ih =>
      have hk := h k (List.mem_cons_self k rest)
      have hknotin : k ∉ rest := (List.nodup_cons.mp hnd).1
      have hndrest : rest.Nodup := (List.nodup_cons.mp hnd).2
      cases hm : mapGet m k with
      | none => simp [startReadyB, hm] at hk
      | some c =>
          have hup : c.up = false := by
            simp [startReadyB, hm, Bool.and_eq_true] at hk
            exact hk.1
          have hsc : c.init.selfContained = true := by
            simp [startReadyB, hm, Bool.and_eq_true] at hk
            exact hk.2
          have hrest : ∀ k' ∈ rest, ∀ c' : ServiceContainer,
              startReadyB (mapSet m k c') k' = true := by
            intro k' hk' c'
            have hne : k' ≠ k := fun hh => hknotin (hh ▸ hk')
            simp only [startReadyB, mapGet_mapSet_ne m k k' c' hne]
            exact h k' (List.mem_cons_of_mem _ hk')
          have hevents : eventsOfInit m k = c.init.allEvents := by
            simp [eventsOfInit, hm]
          cases hi : c.init with
          | readService dep ev => rw [hi] at hsc; exact absurd hsc (by simp [InitFn.selfContained])
          | throws msg => rw [hi] at hsc; exact absurd hsc (by simp [InitFn.selfContained])
          | sync ev v =>
              have hred : runStartLevelSeq (k :: rest) m w
                  = runStartLevelSeq rest
                      (mapSet m k (completeStart (w.pushLog ev) c v).2)
                      (completeStart (w.pushLog ev) c v).1 := by
                simp [runStartLevelSeq, hm, hup, invokeStart, hi]
              rw [hred, ih _ _ hndrest (fun k' hk' => hrest k' hk' _)]
              simp [completeStart_log, World.pushLog, seqEvents,
                seqEvents_mapSet _ _ _ _ hknotin, hevents, hi,
                InitFn.allEvents, List.append_assoc]
          | timer d ev v =>
              have hred : runStartLevelSeq (k :: rest) m w
                  = runStartLevelSeq rest
                      (mapSet m k (completeStart (w.pushLog ev) c v).2)
                      (completeStart (w.pushLog ev) c v).1 := by
                simp [runStartLevelSeq, hm, hup, invokeStart, hi]
              rw [hred, ih _ _ hndrest (fun k' hk' => hrest k' hk' _)]
              simp [completeStart_log, World.pushLog, seqEvents,
                seqEvents_mapSet _ _ _ _ hknotin, hevents, hi,
                InitFn.allEvents, List.append_assoc]
          | asyncFn ev v =>
              have hred : runStartLevelSeq (k :: rest) m w
                  = runStartLevelSeq rest
                      (mapSet m k (completeStart ((w.pushLog ev).pushLog []) c v).2)
                      (completeStart ((w.pushLog ev).pushLog []) c v).1 := by
                simp [runStartLevelSeq, hm, hup, invokeStart, hi]
              rw [hred, ih _ _ hndrest (fun k' hk' => hrest k' hk' _)]
              simp [completeStart_log, World.pushLog, seqEvents,
                seqEvents_mapSet _ _ _ _ hknotin, hevents, hi,
                InitFn.allEvents, List.append_assoc]
          | plugInit =>
              have hred : runStartLevelSeq (k :: rest) m w
                  = runStartLevelSeq rest
                      (mapSet m k
                        (completeStart (w.freshPlug (some k)).1
                          c (.plugRef (w.freshPlug (some k)).2)).2)
                      (completeStart (w.freshPlug (some k)).1
                        c (.plugRef (w.freshPlug (some k)).2)).1 := by
                simp [runStartLevelSeq, hm, hup, invokeStart, hi]
              rw [hred, ih _ _ hndrest (fun k' hk' => hrest k' hk' _)]
              simp [completeStart_log, World.freshPlug_log, seqEvents,
                seqEvents_mapSet _ _ _ _ hknotin, hevents, hi,
                InitFn.allEvents]

/-- Every event a stop function pushes. -/
def DestroyFn.allEvents : DestroyFn → List Int
  | .sync ev => ev
  | .slow _ ev => ev
  | .throws _ => []

def eventsOfDestroy (m : List (String × ServiceContainer)) (k : String) : List Int :=
  match mapGet m k with
  | some c =>
      match c.destroy with
      | some d => d.allEvents
      | none => []
  | none => []

/-- Decidable readiness of an entry for the sequential stop lemma: the
entry exists, carries a destroyer and a value, and the destroyer settles. -/
def stopReadyB (m : List (String × ServiceContainer)) (k : String) : Bool :=
  match mapGet m k with
  | some c =>
      match c.destroy, c.value with
      | some (.sync _), some _ => true
      | some (.slow _ _), some _ => true
      | _, _ => false
  | none => false

def seqStopEvents (m : List (String × ServiceContainer)) : List String → List Int
  | [] => []
  | k :: rest => eventsOfDestroy m k ++ seqStopEvents m rest

theorem seqStopEvents_mapSet (m : List (String × ServiceContainer)) (k : String)
    (c : ServiceContainer) (ks : List String) (hk : k ∉ ks) :
    seqStopEvents (mapSet m k c) ks = seqStopEvents m ks := by
  induction ks with
  | nil => rfl
  | cons k' rest ih =>
      have hne : k' ≠ k := by
        intro h
        exact hk (h ▸ List.mem_cons_self k' rest)
      simp only [seqStopEvents, eventsOfDestroy, mapGet_mapSet_ne m k k' c hne]
      rw [ih (fun h => hk (List.mem_cons_of_mem _ h))]

theorem stopCleanup_stopLog (w : World) (c : ServiceContainer) :
    (stopCleanup w c).1.stopLog = w.stopLog := by
  simp only [stopCleanup]
  split <;> simp [World.setCell_stopLog]

/-- Sequential mode within a stop level: each destroyer is invoked and
fully awaited in strict iteration order (reverse declaration order, as
built by `stop`), so the realized stop log is the concatenation of each
destroyer log in that order. -/
theorem runStopLevelSeq_stopLog (ks : List String)
    (m : List (String × ServiceContainer)) (w : World) (hnd : ks.Nodup)
    (h : ∀ k ∈ ks, stopReadyB m k = true) :
    (runStopLevelSeq ks m w).2.1.stopLog = w.stopLog ++ seqStopEvents m ks := by
  induction ks generalizing m w with
  | nil => simp [runStopLevelSeq, seqStopEvents]
  | cons k rest ih =>
      have hk := h k (List.mem_cons_self k rest)
      have hknotin : k ∉ rest := (List.nodup_cons.mp hnd).1
      have hndrest : rest.Nodup := (List.nodup_cons.mp hnd).2
      cases hm : mapGet m k with
      | none => simp [stopReadyB, hm] at hk
      | some c =>
          have hrest : ∀ k' ∈ rest, ∀ c' : ServiceContainer,
              stopReadyB (mapSet m k c') k' = true := by
            intro k' hk' c'
            have hne : k' ≠ k := fun hh => hknotin (hh ▸ hk')
            simp only [stopReadyB, mapGet_mapSet_ne m k k' c' hne]
            exact h k' (List.mem_cons_of_mem _ hk')
          cases hd : c.destroy with
          | none => simp [stopReadyB, hm, hd] at hk
          | some d =>
              cases hv : c.value with
              | none => simp [stopReadyB, hm, hd, hv] at hk
              | some v0 =>
                  have hevents : eventsOfDestroy m k = d.allEvents := by
                    simp [eventsOfDestroy, hm, hd]
                  cases hdd : d with
                  | throws msg => simp [stopReadyB, hm, hd, hdd, hv] at hk
                  | sync ev =>
                      have hred : runStopLevelSeq (k :: rest) m w
                          = runStopLevelSeq rest
                              (mapSet m k (stopCleanup (w.pushStop ev) c).2)
                              (stopCleanup (w.pushStop ev) c).1 := by
                        simp [runStopLevelSeq, hm, invokeStop, hd, hdd, hv]
                      rw [hred, ih _ _ hndrest (fun k' hk' => hrest k' hk' _)]
                      simp [stopCleanup_stopLog, World.pushStop, seqStopEvents,
                        seqStopEvents_mapSet _ _ _ _ hknotin, hevents, hdd,
                        DestroyFn.allEvents, List.append_assoc]
                  | slow dl ev =>
                      have hred : (runStopLevelSeq (k :: rest) m w).2.1.stopLog
                          = (runStopLevelSeq rest
                              (mapSet m k (stopCleanup (w.pushStop ev) c).2)
                              (stopCleanup (w.pushStop ev) c).1).2.1.stopLog := by
                        simp [runStopLevelSeq, hm, invokeStop, hd, hdd, hv]
                      rw [hred, ih _ _ hndrest (fun k' hk' => hrest k' hk' _)]
                      simp [stopCleanup_stopLog, World.pushStop, seqStopEvents,
                        seqStopEvents_mapSet _ _ _ _ hknotin, hevents, hdd,
                        DestroyFn.allEvents, List.append_assoc]

set_option maxHeartbeats 4000000 in
/-- C4: on the host with levels L0 = (test1 async, test2 sync),
L1 = (test3, test4) and the two-service plugin (11, 12) bound between L0
and L1, parallel-mode `start()` realizes [2, 1, 11, 12, 3, 4] and `stop()`
realizes [4, 3, 12, 11, 2, 1] — the plugin anchored at level 0 is torn
down through the sub-registry between host level 1 and host level 0, its
services in the sub-registry reverse order; after `stop()` the merged
entries are gone from the host registry (only the four host keys remain)
and a second `start()` rebuilds the plugin, repeating the same sequence.
The composed two-plugin host shows teardown in reverse bind order:
started [11, 12, 13, 14], stopped [14, 13, 12, 11]. -/
theorem c4_plugin_start_stop_and_teardown :
    hostC4Started.2.1.log = [2, 1, 11, 12, 3, 4]
    ∧ hostC4Stopped.2.1.stopLog = [4, 3, 12, 11, 2, 1]
    ∧ mapKeys hostC4Stopped.1.map = ["test1", "test2", "test3", "test4"]
    ∧ (startF 40 hostC4Stopped.1 hostC4Stopped.2.1).2.1.log
        = [2, 1, 11, 12, 3, 4, 2, 1, 11, 12, 3, 4]
    ∧ composedStarted.2.1.log = [11, 12, 13, 14]
    ∧ (stopF 40 composedStarted.1 composedStarted.2.1).2.1.stopLog
        = [14, 13, 12, 11] := by
  refine ⟨by decide, by decide, by decide, by decide, by decide, by decide⟩

/-- C9: in sequential mode every start function of a level is invoked and
fully awaited in strict declaration order (the realized log is the
concatenation of the per-entry logs in declaration order), every stop
level likewise in its iteration order (reverse declaration order, as
`stop` builds its groups from the reversed entry list); on the reference
graph the realized sequences are start [1, 2, 3, 4] and stop [4, 3, 2, 1]. -/
theorem c9_sequential_mode_strict_order
    (ks ksStop : List String) (m mStop : List (String × ServiceContainer))
    (w wStop : World) (hnd : ks.Nodup)
    (h : ∀ k ∈ ks, startReadyB m k = true) (hndStop : ksStop.Nodup)
    (hStop : ∀ k ∈ ksStop, stopReadyB mStop k = true) :
    (runStartLevelSeq ks m w).2.1.log = w.log ++ seqEvents m ks
    ∧ (runStopLevelSeq ksStop mStop wStop).2.1.stopLog
        = wStop.stopLog ++ seqStopEvents mStop ksStop
    ∧ (startF 40 refServerSeq w0).2.1.log = [1, 2, 3, 4]
    ∧ (stopF 40 (startF 40 refServerSeq w0).1
        (startF 40 refServerSeq w0).2.1).2.1.stopLog = [4, 3, 2, 1] :=
  ⟨runStartLevelSeq_log ks m w hnd h,
   runStopLevelSeq_stopLog ksStop mStop wStop hndStop hStop, rfl, rfl⟩

def seqWitnessMap : List (String × ServiceContainer) :=
  [("a", { level := 0, init := .sync [7] (.str "x"), serverSymbol := 0 }),
   ("b", { level := 0, init := .timer 5 [8] (.str "y"), serverSymbol := 0 })]

def seqWitnessStopMap : List (String × ServiceContainer) :=
  [("a", { level := 0, init := .sync [] (.str "x"), up := true,
           destroy := some (.sync [7]), value := some (.str "x"), serverSymbol := 0 }),
   ("b", { level := 0, init := .sync [] (.str "y"), up := true,
           destroy := some (.slow 5 [8]), value := some (.str "y"), serverSymbol := 0 })]

/-- Witness for C9 at a concrete two-entry level. -/
theorem c9_sequential_mode_strict_order_witness :
    (runStartLevelSeq ["a", "b"] seqWitnessMap w0).2.1.log
        = w0.log ++ seqEvents seqWitnessMap ["a", "b"]
    ∧ (runStopLevelSeq ["a", "b"] seqWitnessStopMap w0).2.1.stopLog
        = w0.stopLog ++ seqStopEvents seqWitnessStopMap ["a", "b"]
    ∧ (startF 40 refServerSeq w0).2.1.log = [1, 2, 3, 4]
    ∧ (stopF 40 (startF 40 refServerSeq w0).1
        (startF 40 refServerSeq w0).2.1).2.1.stopLog = [4, 3, 2, 1] :=
  c9_sequential_mode_strict_order ["a", "b"] ["a", "b"] seqWitnessMap
    seqWitnessStopMap w0 w0 (by decide) (by decide) (by decide) (by decide)

/-! ## Plug protocol and accessor claims -/

theorem get?_setCell_self (w : World) (id : Nat) (v : Option Value)
    (key : Option String) (old : Option Value)
    (h : w.plugs.get? id = some (key, old)) :
    (w.setCell id v).plugs.get? id = some (key, v) := by
  have hlt : id < w.plugs.length := by
    by_contra hge
    rw [List.get?_eq_none.mpr (le_of_not_lt hge)] at h
    exact absurd h (by simp)
  simp only [World.setCell, h, List.get?_eq_getElem?]
  exact List.getElem?_set_eq_of_lt _ hlt

/-- A server whose `svc` entry is, at this moment, an unresolved plug: the
plug was declared at level 0, a consumer was registered above it, and the
override is registered but not yet started. -/
def plugStageServer : FrogeServer × World :=
  let r1 := (froge 0).up w0 [("svc", .plugInit)] none
  let r2 := r1.1.up r1.2.1 [("consumer", .readService "svc" [])] none
  let r3 := r2.1.up r2.2.1 [("svc", .sync [] (.thunk (.str "real")))] none
  (r3.1, r3.2.1)

/-- C1 counterexample: with the `svc` entry currently an unresolved plug
(the cell store holds no started service), reading `services["svc"]` does
not fail — it returns the plug object.  The claimed synchronous access
failure for the unresolved-plug case does not happen; only dereferencing
the returned plug fails. -/
theorem c1_counterexample :
    plugIsReady plugStageServer.2 0 = false
    ∧ plugStageServer.1.servicesGet "svc" = .ok (some (.plugRef 0))
    ∧ (∃ e, derefPlug plugStageServer.2 0 = .error e) := by
  refine ⟨by decide, by rfl, ?_⟩
  exact ⟨"Trying to access uninitialized plug for service undefined", by rfl⟩

/-- C1 (amended): reading the accessor fails synchronously for an
unregistered name and for a plugless definition that is not up (never
started, or started and stopped); an entry carrying a plug never fails at
read time — the accessor returns the shared plug object, whose dereference
fails while the cell is unresolved; a plugless up entry returns the stored
instance. -/
theorem c1_accessor_characterization (s : FrogeServer) (prop : String) :
    (mapGet s.map prop = none →
      s.servicesGet prop = .error (accessMissingMsg prop))
    ∧ (∀ c : ServiceContainer, ∀ id : Nat, mapGet s.map prop = some c →
        c.plug = some id → s.servicesGet prop = .ok (some (.plugRef id)))
    ∧ (∀ c : ServiceContainer, mapGet s.map prop = some c → c.plug = none →
        c.up = false → s.servicesGet prop = .error (accessNotStartedMsg prop))
    ∧ (∀ c : ServiceContainer, mapGet s.map prop = some c → c.plug = none →
        c.up = true → s.servicesGet prop = .ok c.value)
    ∧ (∀ w : World, ∀ id : Nat, plugIsReady w id = false →
        ∃ e, derefPlug w id = .error e) := by
  refine ⟨?_, ?_, ?_, ?_, ?_⟩
  · intro h
    simp [FrogeServer.servicesGet, mapAccess, h]
  · intro c id hc hp
    simp [FrogeServer.servicesGet, mapAccess, hc, hp]
  · intro c hc hp hup
    simp [FrogeServer.servicesGet, mapAccess, hc, hp, hup]
  · intro c hc hp hup
    simp [FrogeServer.servicesGet, mapAccess, hc, hp, hup]
  · intro w id hready
    unfold plugIsReady at hready
    unfold derefPlug
    match hcell : w.plugs.get? id with
    | none => exact ⟨_, rfl⟩
    | some (key, none) => exact ⟨_, rfl⟩
    | some (key, some v) => rw [hcell] at hready; simp at hready

theorem completeStart_cell (w : World) (c : ServiceContainer) (v : Value)
    (id : Nat) (key : Option String) (old : Option Value)
    (hplug : c.plug = some id) (hcell : w.plugs.get? id = some (key, old)) :
    (completeStart w c v).1.plugs.get? id = some (key, some v) := by
  simp only [completeStart, hplug]
  exact get?_setCell_self w id (some v) key old hcell

theorem stopCleanup_cell (w : World) (c : ServiceContainer)
    (id : Nat) (key : Option String) (old : Option Value)
    (hplug : c.plug = some id) (hcell : w.plugs.get? id = some (key, old)) :
    (stopCleanup w c).1.plugs.get? id = some (key, none) := by
  simp only [stopCleanup, hplug]
  exact get?_setCell_self w id none key old hcell

/-- C5: dereferencing a plug whose shared cell is unresolved fails with
the descriptive error naming the service; the accessor hands out the one
cell reference stored in the container, the reference survives the start
of the override unchanged, and once the override start completes the
engine has written the started value into that single cell — so a
dereference through any reference obtained at any earlier time yields the
same resolved value. -/
theorem c5_plug_shared_cell_resolution
    (w : World) (id : Nat) (key : Option String)
    (m : List (String × ServiceContainer)) (k : String)
    (c : ServiceContainer) (r : Value)
    (hcell : w.plugs.get? id = some (key, none))
    (hc : mapGet m k = some c) (hplug : c.plug = some id) :
    derefPlug w id
      = .error ("Trying to access uninitialized plug for service "
          ++ key.getD "undefined")
    ∧ mapAccess m k = .ok (some (.plugRef id))
    ∧ (completeStart w c (.thunk r)).2.plug = some id
    ∧ mapAccess (mapSet m k (completeStart w c (.thunk r)).2) k
        = .ok (some (.plugRef id))
    ∧ derefPlug (completeStart w c (.thunk r)).1 id = .ok r := by
  have hcell2 := hcell
  rw [List.get?_eq_getElem?] at hcell2
  refine ⟨?_, ?_, ?_, ?_, ?_⟩
  · simp [derefPlug, hcell2]
  · simp [mapAccess, hc, hplug]
  · rw [completeStart_container]
    exact hplug
  · rw [mapAccess, mapGet_mapSet_self, completeStart_container]
    simp [hplug]
  · have h2 := completeStart_cell w c (.thunk r) id key none hplug hcell
    rw [List.get?_eq_getElem?] at h2
    simp [derefPlug, h2]

def plugWitnessWorld : World := { plugs := [(some "svc", none)] }

def plugWitnessContainer : ServiceContainer :=
  { level := 1, init := .sync [] (.thunk (.str "real")), plug := some 0,
    serverSymbol := 0 }

/-- Witness for C5 at a concrete single-plug registry. -/
theorem c5_plug_shared_cell_resolution_witness :
    derefPlug plugWitnessWorld 0
      = .error "Trying to access uninitialized plug for service svc"
    ∧ mapAccess [("svc", plugWitnessContainer)] "svc" = .ok (some (.plugRef 0))
    ∧ (completeStart plugWitnessWorld plugWitnessContainer (.thunk (.str "real"))).2.plug = some 0
    ∧ mapAccess
        (mapSet [("svc", plugWitnessContainer)] "svc"
          (completeStart plugWitnessWorld plugWitnessContainer (.thunk (.str "real"))).2) "svc"
        = .ok (some (.plugRef 0))
    ∧ derefPlug
        (completeStart plugWitnessWorld plugWitnessContainer (.thunk (.str "real"))).1 0
        = .ok (.str "real") :=
  c5_plug_shared_cell_resolution plugWitnessWorld 0 (some "svc")
    [("svc", plugWitnessContainer)] "svc" plugWitnessContainer (.str "real")
    (by rfl) (by rfl) (by rfl)

/-- C10: the readiness flag of the shared cell moves in lockstep with the
running flag of the overriding container: the dry run of registration
creates the cell unresolved (flag down, container down); a completed start
writes the cell and raises the flag together with `up`; an acting
`stopService` resets the cell to undefined together with `up`, after which
every previously distributed reference (the same cell) is unresolved and
fails on dereference; a skipped `stopService` (no destroyer or no value)
changes neither; a subsequent start resolves the same cell again. -/
theorem c10_plug_ready_tracks_running
    (w : World) (c : ServiceContainer) (id : Nat) (key : Option String)
    (v : Value) (old : Option Value)
    (hplug : c.plug = some id) (hcell : w.plugs.get? id = some (key, old)) :
    (∀ w2 : World, ∀ k2 : Option String,
      plugIsReady (w2.freshPlug k2).1 (w2.freshPlug k2).2 = false)
    ∧ plugIsReady (completeStart w c v).1 id = true
    ∧ (completeStart w c v).2.up = true
    ∧ plugIsReady (stopCleanup w c).1 id = false
    ∧ (stopCleanup w c).2.up = false
    ∧ (∃ e, derefPlug (stopCleanup w c).1 id = .error e)
    ∧ (∀ c2 : ServiceContainer, c2.destroy = none ∨ c2.value = none →
        invokeStop w c2 = (w, .skip))
    ∧ plugIsReady (completeStart (stopCleanup w c).1
        { c with value := none, up := false } v).1 id = true := by
  have hstop := stopCleanup_cell w c id key old hplug hcell
  refine ⟨?_, ?_, ?_, ?_, ?_, ?_, ?_, ?_⟩
  · intro w2 k2
    simp [plugIsReady, World.freshPlug]
  · have h2 := completeStart_cell w c v id key old hplug hcell
    rw [List.get?_eq_getElem?] at h2
    simp [plugIsReady, h2]
  · rw [completeStart_container]
  · have h2 := hstop
    rw [List.get?_eq_getElem?] at h2
    simp [plugIsReady, h2]
  · simp [stopCleanup]
    split <;> rfl
  · have h2 := hstop
    rw [List.get?_eq_getElem?] at h2
    exact ⟨"Trying to access uninitialized plug for service " ++ key.getD "undefined",
      by simp [derefPlug, h2]⟩
  · intro c2 h2
    cases h2 with
    | inl h => simp [invokeStop, h]
    | inr h =>
        cases hd : c2.destroy with
        | none => simp [invokeStop, hd]
        | some d => simp [invokeStop, hd, h]
  · have h2 := completeStart_cell (stopCleanup w c).1
      { c with value := none, up := false } v id key none hplug hstop
    rw [List.get?_eq_getElem?] at h2
    simp [plugIsReady, h2]

/-- Witness for C10 at the concrete single-plug registry. -/
theorem c10_plug_ready_tracks_running_witness :
    (∀ w2 : World, ∀ k2 : Option String,
      plugIsReady (w2.freshPlug k2).1 (w2.freshPlug k2).2 = false)
    ∧ plugIsReady (completeStart plugWitnessWorld plugWitnessContainer
        (.thunk (.str "real"))).1 0 = true
    ∧ (completeStart plugWitnessWorld plugWitnessContainer
        (.thunk (.str "real"))).2.up = true
    ∧ plugIsReady (stopCleanup plugWitnessWorld plugWitnessContainer).1 0 = false
    ∧ (stopCleanup plugWitnessWorld plugWitnessContainer).2.up = false
    ∧ (∃ e, derefPlug (stopCleanup plugWitnessWorld plugWitnessContainer).1 0
        = .error e)
    ∧ (∀ c2 : ServiceContainer, c2.destroy = none ∨ c2.value = none →
        invokeStop plugWitnessWorld c2 = (plugWitnessWorld, .skip))
    ∧ plugIsReady (completeStart
        (stopCleanup plugWitnessWorld plugWitnessContainer).1
        { plugWitnessContainer with value := none, up := false }
        (.thunk (.str "real"))).1 0 = true :=
  c10_plug_ready_tracks_running plugWitnessWorld plugWitnessContainer 0
    (some "svc") (.thunk (.str "real")) none (by rfl) (by rfl)

/-! ## Plugin merge collision (C8) -/

theorem firstCollision_some (host l : List (String × ServiceContainer))
    (k : String) (h : firstCollision host l = some k) :
    (mapGet host k).isSome = true ∧ k ∈ mapKeys l := by
  induction l with
  | nil => simp [firstCollision] at h
  | cons kc rest ih =>
      by_cases hc : (mapGet host kc.1).isSome = true
      · simp only [firstCollision, hc, if_true] at h
        cases h
        exact ⟨hc, by simp [mapKeys]⟩
      · simp only [firstCollision, hc] at h
        simp only [Bool.false_eq_true, if_false] at h
        rcases ih h with ⟨h1, h2⟩
        exact ⟨h1, by simp [mapKeys] at h2 ⊢; exact Or.inr h2⟩

theorem materializedSub_map (s : FrogeServer) (pc : PluginContainer) :
    (materializedSub s pc).map = pc.factory.map := by
  unfold materializedSub
  split <;> rfl

/-- C8: when a binding is first materialized and any sub-registry key
collides with a host name, the merge aborts with the fatal error naming
that key: the host registry and the world (no events, no cells) are
unchanged and no service of the plugin has started — the stored
sub-registry is the factory product itself, its registry untouched by the
configuration copy. -/
theorem c8_plugin_collision_aborts_merge (fuel : Nat) (s : FrogeServer)
    (w : World) (pc : PluginContainer) (k : String)
    (hserver : pc.server = none)
    (hcol : firstCollision s.map (materializedSub s pc).map = some k) :
    startOnePlugin (fuel + 1) s w pc
      = (s, w, pc.withServer (some (materializedSub s pc)), some (collisionMsg k))
    ∧ (mapGet s.map k).isSome = true
    ∧ k ∈ mapKeys (materializedSub s pc).map
    ∧ (materializedSub s pc).map = pc.factory.map := by
  rcases firstCollision_some _ _ _ hcol with ⟨h1, h2⟩
  refine ⟨?_, h1, h2, materializedSub_map s pc⟩
  simp [startOnePlugin, hserver, hcol]

/-- The colliding host and sub-registry of the override test. -/
def c8Host : FrogeServer :=
  ((froge 0).up w0 [("test", .sync [] (.str "t"))] none).1

def c8Sub : FrogeServer :=
  ((froge 1).up w0 [("test", .sync [] (.str "t2"))] none).1

/-- Witness for C8 at the concrete colliding composition. -/
theorem c8_plugin_collision_aborts_merge_witness :
    startOnePlugin 5 c8Host w0 (.mk c8Sub true none)
      = (c8Host, w0,
          (PluginContainer.mk c8Sub true none).withServer
            (some (materializedSub c8Host (.mk c8Sub true none))),
          some (collisionMsg "test"))
    ∧ (mapGet c8Host.map "test").isSome = true
    ∧ "test" ∈ mapKeys (materializedSub c8Host (.mk c8Sub true none)).map
    ∧ (materializedSub c8Host (.mk c8Sub true none)).map = c8Sub.map :=
  c8_plugin_collision_aborts_merge 4 c8Host w0 (.mk c8Sub true none) "test"
    (by rfl) (by rfl)

/-! ## Registration override discipline (C2) -/

theorem FrogeServer.map_withMap (s : FrogeServer)
    (m : List (String × ServiceContainer)) : (s.withMap m).map = m := rfl

theorem FrogeServer.map_withCurrentLevel (s : FrogeServer) (l : Int) :
    (s.withCurrentLevel l).map = s.map := rfl

theorem FrogeServer.map_withGroups (s : FrogeServer) (g : List String) :
    (s.withGroups g).map = s.map := rfl

/-- Keys not mentioned by the call are untouched by the `up` loop. -/
theorem upGo_preserves (sym : Nat) (level : Int) (group : Option String)
    (defs : List (String × InitFn)) (m : List (String × ServiceContainer))
    (w : World) (k : String) (hk : k ∉ defs.map Prod.fst) :
    mapGet (upGo sym level group defs m w).1 k = mapGet m k := by
  induction defs generalizing m w with
  | nil => rfl
  | cons kv rest ih =>
      have hne : k ≠ kv.1 := by
        intro h
        exact hk (by simp [h])
      have hkrest : k ∉ rest.map Prod.fst := fun h => hk (by simp [h])
      obtain ⟨key, init⟩ := kv
      simp only [upGo]
      cases hm : mapGet m key with
      | none =>
          rw [ih _ _ hkrest, mapGet_mapSet_ne _ _ _ _ hne]
      | some existing =>
          by_cases ha : existing.init.isAsync = true
          · simp [ha]
          · simp only [ha, Bool.false_eq_true, if_false]
            cases hd : existing.init.dryKind with
            | threw msg => simp
            | retOther => simp
            | retPlug =>
                simp only []
                rw [ih _ _ hkrest, mapGet_mapSet_ne _ _ _ _ hne,
                  mapGet_mapDelete_ne _ _ _ hne]

/-- Only the plug factory init is classified as returning a plug, and its
dry run indeed creates a cell. -/
theorem dryKind_retPlug_dryRun (i : InitFn) (w : World)
    (h : i.dryKind = .retPlug) : (dryRun i w).2.isSome = true := by
  cases i <;> simp [InitFn.dryKind] at h ⊢ <;> simp [dryRun]

/-- Behaviour of the `up` loop on a call whose keys are distinct: an error
is always an override rejection that names the offending key, classifies
the existing init (async, raised, or returned a non-plug under the
restricted dry run) and leaves the existing entry in place; a successful
call means every overridden existing entry passed the dry run as a plug
factory, and was replaced by a fresh down entry at the new level carrying
the created plug cell and the new init. -/
theorem upGo_spec (sym : Nat) (level : Int) (group : Option String)
    (defs : List (String × InitFn)) (m : List (String × ServiceContainer))
    (w : World) (hnd : (defs.map Prod.fst).Nodup) :
    (∀ e, (upGo sym level group defs m w).2.2 = some e →
      ∃ k ex, mapGet m k = some ex ∧ k ∈ defs.map Prod.fst
        ∧ mapGet (upGo sym level group defs m w).1 k = some ex
        ∧ ((ex.init.isAsync = true ∧ e = overrideAsyncMsg k ex.group)
           ∨ (∃ msg, ex.init.isAsync = false ∧ ex.init.dryKind = .threw msg
                ∧ e = overrideRaisedMsg k ex.group msg)
           ∨ (ex.init.isAsync = false ∧ ex.init.dryKind = .retOther
                ∧ e = overrideNotPlugMsg k ex.group)))
    ∧ ((upGo sym level group defs m w).2.2 = none →
      ∀ k ex, k ∈ defs.map Prod.fst → mapGet m k = some ex →
        ex.init.isAsync = false ∧ ex.init.dryKind = .retPlug
        ∧ ∃ c : ServiceContainer,
            mapGet (upGo sym level group defs m w).1 k = some c
            ∧ c.plug.isSome = true ∧ c.up = false ∧ c.level = level
            ∧ mapGet defs k = some c.init) := by
  induction defs generalizing m w with
  | nil =>
      constructor
      · intro e he
        simp [upGo] at he
      · intro _ k ex hk
        simp at hk
  | cons kv rest ih =>
      obtain ⟨key, init⟩ := kv
      have hnd' : key ∉ rest.map Prod.fst ∧ (rest.map Prod.fst).Nodup := by
        rw [List.map_cons, List.nodup_cons] at hnd
        exact hnd
      cases hm : mapGet m key with
      | none =>
          have hred : upGo sym level group ((key, init) :: rest) m w
              = upGo sym level group rest
                  (mapSet m key
                    { level := level, group := group, up := false, init := init,
                      serverSymbol := sym }) w := by
            simp [upGo, hm]
          rw [hred]
          rcases ih _ w hnd'.2 with ⟨ihErr, ihOk⟩
          constructor
          · intro e he
            rcases ihErr e he with ⟨k, ex, hk1, hk2, hk3, hk4⟩
            have hne : k ≠ key := by
              intro hh
              rw [hh] at hk2
              exact absurd hk2 hnd'.1
            rw [mapGet_mapSet_ne _ _ _ _ hne] at hk1
            refine ⟨k, ex, hk1, ?_, hk3, hk4⟩
            rw [List.map_cons]
            exact List.mem_cons_of_mem _ hk2
          · intro hok k ex hk hmk
            rw [List.map_cons] at hk
            rcases List.mem_cons.mp hk with hkey | hrest
            · subst hkey
              rw [hmk] at hm
              cases hm
            · have hne : k ≠ key := by
                intro hh
                rw [hh] at hrest
                exact absurd hrest hnd'.1
              have hres := ihOk hok k ex hrest
                (by rw [mapGet_mapSet_ne _ _ _ _ hne]; exact hmk)
              rcases hres with ⟨h1, h2, c, h3, h4, h5, h6, h7⟩
              refine ⟨h1, h2, c, h3, h4, h5, h6, ?_⟩
              simp only [mapGet, if_neg (Ne.symm hne)]
              exact h7
      | some existing =>
          by_cases ha : existing.init.isAsync = true
          · have hred : upGo sym level group ((key, init) :: rest) m w
                = (m, w, some (overrideAsyncMsg key existing.group)) := by
              simp [upGo, hm, ha]
            rw [hred]
            constructor
            · intro e he
              cases he
              refine ⟨key, existing, hm, ?_, hm, Or.inl ⟨ha, rfl⟩⟩
              rw [List.map_cons]
              exact List.mem_cons_self _ _
            · intro hok
              cases hok
          · rw [Bool.not_eq_true] at ha
            cases hd : existing.init.dryKind with
            | threw msg =>
                have hred : upGo sym level group ((key, init) :: rest) m w
                    = (m, (dryRun existing.init w).1,
                        some (overrideRaisedMsg key existing.group msg)) := by
                  simp [upGo, hm, ha, hd]
                rw [hred]
                constructor
                · intro e he
                  cases he
                  refine ⟨key, existing, hm, ?_, hm,
                    Or.inr (Or.inl ⟨msg, ha, hd, rfl⟩)⟩
                  rw [List.map_cons]
                  exact List.mem_cons_self _ _
                · intro hok
                  cases hok
            | retOther =>
                have hred : upGo sym level group ((key, init) :: rest) m w
                    = (m, (dryRun existing.init w).1,
                        some (overrideNotPlugMsg key existing.group)) := by
                  simp [upGo, hm, ha, hd]
                rw [hred]
                constructor
                · intro e he
                  cases he
                  refine ⟨key, existing, hm, ?_, hm,
                    Or.inr (Or.inr ⟨ha, hd, rfl⟩)⟩
                  rw [List.map_cons]
                  exact List.mem_cons_self _ _
                · intro hok
                  cases hok
            | retPlug =>
                have hred : upGo sym level group ((key, init) :: rest) m w
                    = upGo sym level group rest
                        (mapSet (mapDelete m key) key
                          { level := level, group := group, up := false,
                            init := init, plug := (dryRun existing.init w).2,
                            serverSymbol := sym }) (dryRun existing.init w).1 := by
                  simp [upGo, hm, ha, hd]
                rw [hred]
                rcases ih _ (dryRun existing.init w).1 hnd'.2 with ⟨ihErr, ihOk⟩
                constructor
                · intro e he
                  rcases ihErr e he with ⟨k, ex, hk1, hk2, hk3, hk4⟩
                  have hne : k ≠ key := by
                    intro hh
                    rw [hh] at hk2
                    exact absurd hk2 hnd'.1
                  rw [mapGet_mapSet_ne _ _ _ _ hne,
                    mapGet_mapDelete_ne _ _ _ hne] at hk1
                  refine ⟨k, ex, hk1, ?_, hk3, hk4⟩
                  rw [List.map_cons]
                  exact List.mem_cons_of_mem _ hk2
                · intro hok k ex hk hmk
                  rw [List.map_cons] at hk
                  rcases List.mem_cons.mp hk with hkey | hrest
                  · subst hkey
                    rw [hmk] at hm
                    injection hm with hmx
                    subst hmx
                    refine ⟨ha, hd, ?_⟩
                    refine ⟨⟨level, group, false, init, none, none,
                      (dryRun ex.init w).2, sym⟩, ?_, ?_, ?_, ?_, ?_⟩
                    · rw [upGo_preserves _ _ _ _ _ _ _ hnd'.1]
                      exact mapGet_mapSet_self _ _ _
                    · exact dryKind_retPlug_dryRun _ _ hd
                    · rfl
                    · rfl
                    · simp [mapGet]
                  · have hne : k ≠ key := by
                      intro hh
                      rw [hh] at hrest
                      exact absurd hrest hnd'.1
                    have hres := ihOk hok k ex hrest
                      (by rw [mapGet_mapSet_ne _ _ _ _ hne,
                        mapGet_mapDelete_ne _ _ _ hne]; exact hmk)
                    rcases hres with ⟨h1, h2, c, h3, h4, h5, h6, h7⟩
                    refine ⟨h1, h2, c, h3, h4, h5, h6, ?_⟩
                    simp only [mapGet, if_neg (Ne.symm hne)]
                    exact h7

theorem up_unfold (s : FrogeServer) (w : World) (defs : List (String × InitFn))
    (g : Option String) (hgroup : ∀ gg, g = some gg → gg ∉ s.groups) :
    (s.up w defs g).1.map
      = (upGo s.symbol (s.currentLevel + 1) g defs s.map w).1
    ∧ (s.up w defs g).2.2
      = (upGo s.symbol (s.currentLevel + 1) g defs s.map w).2.2 := by
  cases g with
  | none => exact ⟨rfl, rfl⟩
  | some gg =>
      have hg : gg ∉ s.groups := hgroup gg rfl
      cases hr : (upGo s.symbol (s.currentLevel + 1) (some gg) defs s.map w).2.2 with
      | none =>
          constructor
          · simp [FrogeServer.up, hg, hr, FrogeServer.map_withMap,
              FrogeServer.map_withGroups]
          · simp [FrogeServer.up, hg, hr]
      | some e =>
          constructor
          · simp [FrogeServer.up, hg, hr, FrogeServer.map_withMap]
          · simp [FrogeServer.up, hg, hr]

/-- C2: on an `up` call with distinct keys and a fresh group name, any key
that already exists is handled by re-invoking the existing start function
under the restricted dry-run context: a failure (the existing init is
async, raised, or returned something that is not a plug) rejects the whole
registration with an error naming the offending key and its likely cause,
and leaves the offending existing entry exactly as it was; on success
every overridden existing entry had passed the dry run as a plug factory
and is replaced by a not-up entry at the new level that carries the
created plug cell and the newly supplied init. -/
theorem c2_up_override_requires_plug (s : FrogeServer) (w : World)
    (defs : List (String × InitFn)) (g : Option String)
    (hnd : (defs.map Prod.fst).Nodup)
    (hgroup : ∀ gg, g = some gg → gg ∉ s.groups) :
    (∀ e, (s.up w defs g).2.2 = some e →
      ∃ k ex, mapGet s.map k = some ex ∧ k ∈ defs.map Prod.fst
        ∧ mapGet (s.up w defs g).1.map k = some ex
        ∧ ((ex.init.isAsync = true ∧ e = overrideAsyncMsg k ex.group)
           ∨ (∃ msg, ex.init.isAsync = false ∧ ex.init.dryKind = .threw msg
                ∧ e = overrideRaisedMsg k ex.group msg)
           ∨ (ex.init.isAsync = false ∧ ex.init.dryKind = .retOther
                ∧ e = overrideNotPlugMsg k ex.group)))
    ∧ ((s.up w defs g).2.2 = none →
      ∀ k ex, k ∈ defs.map Prod.fst → mapGet s.map k = some ex →
        ex.init.isAsync = false ∧ ex.init.dryKind = .retPlug
        ∧ ∃ c : ServiceContainer, mapGet (s.up w defs g).1.map k = some c
            ∧ c.plug.isSome = true ∧ c.up = false
            ∧ c.level = s.currentLevel + 1 ∧ mapGet defs k = some c.init) := by
  rcases up_unfold s w defs g hgroup with ⟨hmap, herr⟩
  rw [hmap, herr]
  exact upGo_spec s.symbol (s.currentLevel + 1) g defs s.map w hnd

/-- The single-plug base registry used by the C2 witness. -/
def c2Base : FrogeServer × World :=
  let r := (froge 0).up w0 [("svc", .plugInit)] none
  (r.1, r.2.1)

def c2Defs : List (String × InitFn) := [("svc", .sync [] (.thunk (.str "real")))]

/-- Witness for C2: overriding a plug entry succeeds and installs the
plug-carrying replacement. -/
theorem c2_up_override_requires_plug_witness :
    (∀ e, (c2Base.1.up c2Base.2 c2Defs none).2.2 = some e →
      ∃ k ex, mapGet c2Base.1.map k = some ex ∧ k ∈ c2Defs.map Prod.fst
        ∧ mapGet (c2Base.1.up c2Base.2 c2Defs none).1.map k = some ex
        ∧ ((ex.init.isAsync = true ∧ e = overrideAsyncMsg k ex.group)
           ∨ (∃ msg, ex.init.isAsync = false ∧ ex.init.dryKind = .threw msg
                ∧ e = overrideRaisedMsg k ex.group msg)
           ∨ (ex.init.isAsync = false ∧ ex.init.dryKind = .retOther
                ∧ e = overrideNotPlugMsg k ex.group)))
    ∧ ((c2Base.1.up c2Base.2 c2Defs none).2.2 = none →
      ∀ k ex, k ∈ c2Defs.map Prod.fst → mapGet c2Base.1.map k = some ex →
        ex.init.isAsync = false ∧ ex.init.dryKind = .retPlug
        ∧ ∃ c : ServiceContainer,
            mapGet (c2Base.1.up c2Base.2 c2Defs none).1.map k = some c
            ∧ c.plug.isSome = true ∧ c.up = false
            ∧ c.level = c2Base.1.currentLevel + 1 ∧ mapGet c2Defs k = some c.init) :=
  c2_up_override_requires_plug c2Base.1 c2Base.2 c2Defs none (by decide)
    (fun gg h => nomatch h)

/-! ## Shutdown deadline claims (C6) -/

/-- A server whose grace period is unset and whose only destroyer would
take 1000000 ms, started and then shut down directly (no `launch`). -/
def c6Server : FrogeServer :=
  let r1 := ((froge 0).configure { verbose := false }).up w0
    [("test1", .sync [] (.str "t"))] none
  (r1.1.down [("test1", .slow 1000000 [])]).1

def c6Started : FrogeServer × World × Option String := startF 40 c6Server w0

/-- C6 counterexample: `shutdown()` called with the grace option unset and
no prior `launch` applies no default and arms no deadline timer — the
1000000 ms stop is awaited in full, the process is not terminated, no
warning and no timeout line is logged, and the configuration still holds
no grace period (the claimed default application before the first
`shutdown` call does not happen). -/
theorem c6_counterexample :
    (shutdownF 40 c6Started.1 c6Started.2.1).2.2 = .running
    ∧ (shutdownF 40 c6Started.1 c6Started.2.1).2.1.console = []
    ∧ (shutdownF 40 c6Started.1 c6Started.2.1).1.config.gracefulShutdownTimeoutMs
        = none
    ∧ (stopF 39 c6Started.1 c6Started.2.1).2.2.2 = 1000000 :=
  ⟨rfl, rfl, rfl, rfl⟩

/-- C6 (amended): only `launch()` applies the 60000 ms default (with its
warning) when the option is unset; `shutdown(reason)` arms the deadline
timer only when the configured grace period is truthy, racing `stop()`
against it — the timer firing first (modelled: the stop duration exceeds
the grace period) logs the timeout line once and terminates the process
with status 1 without awaiting the outstanding stop functions; with the
option unset `shutdown` runs `stop()` without any deadline, so however
long it takes, a clean stop returns normally (or exits 0 under
`forceExitAfterShutdown`) and a failed stop exits 1. -/
theorem c6_shutdown_deadline_race (fuel : Nat) (s : FrogeServer) (w : World)
    (s' : FrogeServer) (w' : World) (e? : Option String) (dur : Nat)
    (hstop : stopF fuel s w = (s', w', e?, dur)) :
    (graceIsSet s.config = false →
      applyDefaultGrace s w
        = (s.withConfig { s.config with gracefulShutdownTimeoutMs := some 60000 },
            w.pushConsole defaultGraceWarning))
    ∧ (graceIsSet s.config = true → applyDefaultGrace s w = (s, w))
    ∧ (graceIsSet s.config = true →
        s.config.gracefulShutdownTimeoutMs.getD 0 < dur →
        shutdownF (fuel + 1) s w
          = (s', w'.pushConsole
              (timeoutKillMsg (s.config.gracefulShutdownTimeoutMs.getD 0)),
              .exited 1))
    ∧ (graceIsSet s.config = false → e? = none →
        s'.config.forceExitAfterShutdown = false →
        shutdownF (fuel + 1) s w = (s', w', .running))
    ∧ (graceIsSet s.config = false → ∀ e, e? = some e →
        shutdownF (fuel + 1) s w
          = (s', w'.pushConsole shutdownIncompleteMsg, .exited 1)) := by
  refine ⟨?_, ?_, ?_, ?_, ?_⟩
  · intro hg
    simp [applyDefaultGrace, hg]
  · intro hg
    simp [applyDefaultGrace, hg]
  · intro hg hdur
    simp [shutdownF, hstop, hg, hdur]
  · intro hg he hforce
    simp [shutdownF, hstop, hg, he, hforce]
  · intro hg e he
    simp [shutdownF, hstop, hg, he]

/-- The timeout scenario of the test suite: grace period 20 ms, the first
destroyer sleeps 50 ms. -/
def shutdownServer : FrogeServer :=
  let r1 := ((froge 0).configure
    { verbose := false, gracefulShutdownTimeoutMs := some 20 }).up w0
    [("test1", .sync [1] (.str "test1")), ("test2", .sync [2] (.str "test2"))] none
  (r1.1.down [("test1", .slow 50 [1]), ("test2", .sync [2])]).1

/-- Witness for C6 at the timeout scenario of the test suite (grace 20 ms,
one destroyer sleeping 50 ms, via `launch`). -/
def c6LaunchState : FrogeServer × World × ProcOutcome := launchF 40 shutdownServer w0

theorem c6_shutdown_deadline_race_witness :
    (graceIsSet c6LaunchState.1.config = false →
      applyDefaultGrace c6LaunchState.1 c6LaunchState.2.1
        = (c6LaunchState.1.withConfig
            { c6LaunchState.1.config with gracefulShutdownTimeoutMs := some 60000 },
            c6LaunchState.2.1.pushConsole defaultGraceWarning))
    ∧ (graceIsSet c6LaunchState.1.config = true →
        applyDefaultGrace c6LaunchState.1 c6LaunchState.2.1
          = (c6LaunchState.1, c6LaunchState.2.1))
    ∧ (graceIsSet c6LaunchState.1.config = true →
        c6LaunchState.1.config.gracefulShutdownTimeoutMs.getD 0
          < (stopF 39 c6LaunchState.1 c6LaunchState.2.1).2.2.2 →
        shutdownF 40 c6LaunchState.1 c6LaunchState.2.1
          = ((stopF 39 c6LaunchState.1 c6LaunchState.2.1).1,
              (stopF 39 c6LaunchState.1 c6LaunchState.2.1).2.1.pushConsole
                (timeoutKillMsg
                  (c6LaunchState.1.config.gracefulShutdownTimeoutMs.getD 0)),
              .exited 1))
    ∧ (graceIsSet c6LaunchState.1.config = false →
        (stopF 39 c6LaunchState.1 c6LaunchState.2.1).2.2.1 = none →
        (stopF 39 c6LaunchState.1 c6LaunchState.2.1).1.config.forceExitAfterShutdown
          = false →
        shutdownF 40 c6LaunchState.1 c6LaunchState.2.1
          = ((stopF 39 c6LaunchState.1 c6LaunchState.2.1).1,
              (stopF 39 c6LaunchState.1 c6LaunchState.2.1).2.1, .running))
    ∧ (graceIsSet c6LaunchState.1.config = false →
        ∀ e, (stopF 39 c6LaunchState.1 c6LaunchState.2.1).2.2.1 = some e →
        shutdownF 40 c6LaunchState.1 c6LaunchState.2.1
          = ((stopF 39 c6LaunchState.1 c6LaunchState.2.1).1,
              (stopF 39 c6LaunchState.1 c6LaunchState.2.1).2.1.pushConsole
                shutdownIncompleteMsg, .exited 1)) :=
  c6_shutdown_deadline_race 39 c6LaunchState.1 c6LaunchState.2.1
    (stopF 39 c6LaunchState.1 c6LaunchState.2.1).1
    (stopF 39 c6LaunchState.1 c6LaunchState.2.1).2.1
    (stopF 39 c6LaunchState.1 c6LaunchState.2.1).2.2.1
    (stopF 39 c6LaunchState.1 c6LaunchState.2.1).2.2.2 rfl

/-! ## Which entries a traversal starts (C3) -/

def entryUp (m : List (String × ServiceContainer)) (k : String) : Option Bool :=
  (mapGet m k).map (·.up)

def entryLevel (m : List (String × ServiceContainer)) (k : String) : Option Int :=
  (mapGet m k).map (·.level)

def entryInit (m : List (String × ServiceContainer)) (k : String) : Option InitFn :=
  (mapGet m k).map (·.init)

/-- A self-contained init either completes its `startService` synchronously
(with the up flag raised and level and init preserved) or suspends. -/
theorem invokeStart_selfContained (m : List (String × ServiceContainer))
    (w : World) (k : String) (c : ServiceContainer)
    (h : c.init.selfContained = true) :
    (∃ w' c', invokeStart m w k c = (w', .done c')
      ∧ c'.up = true ∧ c'.level = c.level ∧ c'.init = c.init)
    ∨ (∃ w' t d ev v, invokeStart m w k c = (w', .pend t d ev v)) := by
  cases hi : c.init with
  | sync ev v =>
      refine Or.inl ⟨(completeStart (w.pushLog ev) c v).1,
        (completeStart (w.pushLog ev) c v).2, by simp [invokeStart, hi],
        ?_, ?_, ?_⟩
      · rw [completeStart_container]
      · rw [completeStart_container]
      · rw [completeStart_container]
        exact hi
  | timer d ev v => exact Or.inr ⟨w, 1, d, ev, v, by simp [invokeStart, hi]⟩
  | asyncFn ev v =>
      exact Or.inr ⟨w.pushLog ev, 0, 0, [], v, by simp [invokeStart, hi]⟩
  | plugInit =>
      refine Or.inl ⟨(completeStart (w.freshPlug (some k)).1 c
          (.plugRef (w.freshPlug (some k)).2)).1,
        (completeStart (w.freshPlug (some k)).1 c
          (.plugRef (w.freshPlug (some k)).2)).2, by simp [invokeStart, hi],
        ?_, ?_, ?_⟩
      · rw [completeStart_container]
      · rw [completeStart_container]
      · rw [completeStart_container]
        exact hi
  | readService dep ev => rw [hi] at h; simp [InitFn.selfContained] at h
  | throws msg => rw [hi] at h; simp [InitFn.selfContained] at h

/-- Parallel invocation sweep over self-contained, distinct entries: no
synchronous failure; every pending item belongs to the level; levels,
inits and presence are preserved; keys outside the level are untouched;
every present key of the level is either already up or suspended
(unchanged and pending). -/
theorem startPhase1_spec (ks : List String) (m : List (String × ServiceContainer))
    (w : World) (idx : Nat) (hnd : ks.Nodup)
    (hsc : ∀ k ∈ ks, ∀ c : ServiceContainer, mapGet m k = some c →
      c.init.selfContained = true) :
    (startPhase1 idx ks m w).2.2.2 = none
    ∧ (∀ p ∈ (startPhase1 idx ks m w).2.2.1, p.key ∈ ks)
    ∧ (∀ k, entryLevel (startPhase1 idx ks m w).1 k = entryLevel m k
        ∧ entryInit (startPhase1 idx ks m w).1 k = entryInit m k)
    ∧ (∀ k, k ∉ ks → mapGet (startPhase1 idx ks m w).1 k = mapGet m k)
    ∧ (∀ k, k ∈ ks → ∀ c : ServiceContainer, mapGet m k = some c →
        entryUp (startPhase1 idx ks m w).1 k = some true
        ∨ (mapGet (startPhase1 idx ks m w).1 k = some c
            ∧ k ∈ (startPhase1 idx ks m w).2.2.1.map (·.key))) := by
  induction ks generalizing idx m w with
  | nil =>
      refine ⟨rfl, by simp [startPhase1], by simp [startPhase1, entryLevel, entryInit],
        fun k _ => rfl, by simp⟩
  | cons k rest ih =>
      have hknotin : k ∉ rest := (List.nodup_cons.mp hnd).1
      have hndrest : rest.Nodup := (List.nodup_cons.mp hnd).2
      cases hm : mapGet m k with
      | none =>
          have hred : startPhase1 idx (k :: rest) m w
              = startPhase1 (idx + 1) rest m w := by
            simp [startPhase1, hm]
          rw [hred]
          have hscr : ∀ k' ∈ rest, ∀ c : ServiceContainer, mapGet m k' = some c →
              c.init.selfContained = true :=
            fun k' hk' => hsc k' (List.mem_cons_of_mem _ hk')
          rcases ih m w (idx + 1) hndrest hscr with ⟨h1, h2, h3, h4, h5⟩
          refine ⟨h1, fun p hp => List.mem_cons_of_mem _ (h2 p hp), h3, ?_, ?_⟩
          · intro k' hk'
            exact h4 k' (fun hh => hk' (List.mem_cons_of_mem _ hh))
          · intro k' hk' c hc
            rcases List.mem_cons.mp hk' with hkey | hrest
            · subst hkey
              rw [hc] at hm
              cases hm
            · exact h5 k' hrest c hc
      | some c =>
          by_cases hup : c.up = true
          · have hred : startPhase1 idx (k :: rest) m w
                = startPhase1 (idx + 1) rest m w := by
              simp [startPhase1, hm, hup]
            rw [hred]
            have hscr : ∀ k' ∈ rest, ∀ c' : ServiceContainer,
                mapGet m k' = some c' → c'.init.selfContained = true :=
              fun k' hk' => hsc k' (List.mem_cons_of_mem _ hk')
            rcases ih m w (idx + 1) hndrest hscr with ⟨h1, h2, h3, h4, h5⟩
            refine ⟨h1, fun p hp => List.mem_cons_of_mem _ (h2 p hp), h3, ?_, ?_⟩
            · intro k' hk'
              exact h4 k' (fun hh => hk' (List.mem_cons_of_mem _ hh))
            · intro k' hk' c' hc
              rcases List.mem_cons.mp hk' with hkey | hrest
              · subst hkey
                left
                rw [hc] at hm
                injection hm with hmx
                subst hmx
                have := h4 k' hknotin
                simp [entryUp, this, hc, hup]
              · exact h5 k' hrest c' hc
          · rw [Bool.not_eq_true] at hup
            rcases invokeStart_selfContained m w k c
                (hsc k (List.mem_cons_self _ _) c hm) with
              ⟨w', c', hinv, hcup, hclevel, hcinit⟩ | ⟨w', t, d, ev, v, hinv⟩
            · have hred : startPhase1 idx (k :: rest) m w
                  = startPhase1 (idx + 1) rest (mapSet m k c') w' := by
                simp [startPhase1, hm, hup, hinv]
              rw [hred]
              have hscr : ∀ k' ∈ rest, ∀ c2 : ServiceContainer,
                  mapGet (mapSet m k c') k' = some c2 →
                  c2.init.selfContained = true := by
                intro k' hk' c2 hc2
                have hne : k' ≠ k := fun hh => hknotin (hh ▸ hk')
                rw [mapGet_mapSet_ne _ _ _ _ hne] at hc2
                exact hsc k' (List.mem_cons_of_mem _ hk') c2 hc2
              rcases ih (mapSet m k c') w' (idx + 1) hndrest hscr with
                ⟨h1, h2, h3, h4, h5⟩
              refine ⟨h1, fun p hp => List.mem_cons_of_mem _ (h2 p hp), ?_, ?_, ?_⟩
              · intro k'
                by_cases hne : k' = k
                · subst hne
                  rcases h3 k' with ⟨h3a, h3b⟩
                  rw [h3a, h3b]
                  simp [entryLevel, entryInit, mapGet_mapSet_self, hm, hclevel, hcinit]
                · rcases h3 k' with ⟨h3a, h3b⟩
                  rw [h3a, h3b]
                  simp [entryLevel, entryInit, mapGet_mapSet_ne _ _ _ _ hne]
              · intro k' hk'
                have hne : k' ≠ k := fun hh => hk' (hh ▸ List.mem_cons_self _ _)
                rw [h4 k' (fun hh => hk' (List.mem_cons_of_mem _ hh)),
                  mapGet_mapSet_ne _ _ _ _ hne]
              · intro k' hk' c2 hc2
                rcases List.mem_cons.mp hk' with hkey | hrest
                · subst hkey
                  left
                  have := h4 k' hknotin
                  simp [entryUp, this, mapGet_mapSet_self, hcup]
                · have hne : k' ≠ k := fun hh => hknotin (hh ▸ hrest)
                  exact h5 k' hrest c2
                    (by rw [mapGet_mapSet_ne _ _ _ _ hne]; exact hc2)
            · have hred : startPhase1 idx (k :: rest) m w
                  = ((startPhase1 (idx + 1) rest m w').1,
                      (startPhase1 (idx + 1) rest m w').2.1,
                      ⟨idx, t, d, ev, v, k⟩
                        :: (startPhase1 (idx + 1) rest m w').2.2.1,
                      (startPhase1 (idx + 1) rest m w').2.2.2) := by
                simp [startPhase1, hm, hup, hinv]
              rw [hred]
              have hscr : ∀ k' ∈ rest, ∀ c2 : ServiceContainer,
                  mapGet m k' = some c2 → c2.init.selfContained = true :=
                fun k' hk' => hsc k' (List.mem_cons_of_mem _ hk')
              rcases ih m w' (idx + 1) hndrest hscr with ⟨h1, h2, h3, h4, h5⟩
              refine ⟨h1, ?_, h3, ?_, ?_⟩
              · intro p hp
                rcases List.mem_cons.mp hp with hph | hpt
                · subst hph
                  exact List.mem_cons_self _ _
                · exact List.mem_cons_of_mem _ (h2 p hpt)
              · intro k' hk'
                exact h4 k' (fun hh => hk' (List.mem_cons_of_mem _ hh))
              · intro k' hk' c2 hc2
                rcases List.mem_cons.mp hk' with hkey | hrest
                · subst hkey
                  right
                  rw [hc2] at hm
                  injection hm with hmx
                  subst hmx
                  exact ⟨h4 k' hknotin ▸ hc2, by simp⟩
                · rcases h5 k' hrest c2 hc2 with hL | ⟨hR1, hR2⟩
                  · exact Or.inl hL
                  · exact Or.inr ⟨hR1, by simp [hR2]⟩

theorem insertPend_mem (p q : PendItem) (l : List PendItem) :
    q ∈ insertPend p l ↔ q = p ∨ q ∈ l := by
  induction l with
  | nil => simp [insertPend]
  | cons x rest ih =>
      by_cases h : pendLE p x = true
      · simp [insertPend, h, List.mem_cons]
      · simp only [insertPend, h, Bool.false_eq_true, if_false, List.mem_cons, ih]
        tauto

theorem sortPends_mem (q : PendItem) (l : List PendItem) :
    q ∈ sortPends l ↔ q ∈ l := by
  induction l with
  | nil => simp [sortPends]
  | cons x rest ih =>
      simp only [sortPends, insertPend_mem, List.mem_cons, ih]

theorem sortPends_key_mem (k : String) (l : List PendItem) :
    k ∈ (sortPends l).map (·.key) ↔ k ∈ l.map (·.key) := by
  simp only [List.mem_map]
  constructor
  · rintro ⟨p, hp, hk⟩
    exact ⟨p, (sortPends_mem p l).mp hp, hk⟩
  · rintro ⟨p, hp, hk⟩
    exact ⟨p, (sortPends_mem p l).mpr hp, hk⟩

/-- Completion sweep: settles every pending entry (up flag raised),
touches nothing else, preserves levels, inits and presence. -/
theorem startPhase2_spec (ps : List PendItem)
    (m : List (String × ServiceContainer)) (w : World) :
    (∀ k, entryLevel (startPhase2 ps m w).1 k = entryLevel m k
        ∧ entryInit (startPhase2 ps m w).1 k = entryInit m k)
    ∧ (∀ k, k ∉ ps.map (·.key) → mapGet (startPhase2 ps m w).1 k = mapGet m k)
    ∧ (∀ k, k ∈ ps.map (·.key) → (mapGet m k).isSome = true →
        entryUp (startPhase2 ps m w).1 k = some true) := by
  induction ps generalizing m w with
  | nil =>
      exact ⟨fun k => ⟨rfl, rfl⟩, fun k _ => rfl, by simp⟩
  | cons p rest ih =>
      cases hm : mapGet m p.key with
      | none =>
          have hred : startPhase2 (p :: rest) m w
              = startPhase2 rest m (w.pushLog p.events) := by
            simp [startPhase2, hm]
          rw [hred]
          rcases ih m (w.pushLog p.events) with ⟨h1, h2, h3⟩
          refine ⟨h1, ?_, ?_⟩
          · intro k hk
            exact h2 k
              (fun hh => hk (by rw [List.map_cons]; exact List.mem_cons_of_mem _ hh))
          · intro k hk hpresent
            rw [List.map_cons] at hk
            rcases List.mem_cons.mp hk with hkey | hrest
            · subst hkey
              rw [hm] at hpresent
              cases hpresent
            · exact h3 k hrest hpresent
      | some c =>
          have hred : startPhase2 (p :: rest) m w
              = startPhase2 rest
                  (mapSet m p.key (completeStart (w.pushLog p.events) c p.ret).2)
                  (completeStart (w.pushLog p.events) c p.ret).1 := by
            simp [startPhase2, hm]
          rw [hred]
          rcases ih (mapSet m p.key (completeStart (w.pushLog p.events) c p.ret).2)
            (completeStart (w.pushLog p.events) c p.ret).1 with ⟨h1, h2, h3⟩
          have hset := completeStart_container (w.pushLog p.events) c p.ret
          refine ⟨?_, ?_, ?_⟩
          · intro k
            rcases h1 k with ⟨h1a, h1b⟩
            rw [h1a, h1b]
            by_cases hne : k = p.key
            · subst hne
              simp [entryLevel, entryInit, mapGet_mapSet_self, hset, hm]
            · simp [entryLevel, entryInit, mapGet_mapSet_ne _ _ _ _ hne]
          · intro k hk
            have hne : k ≠ p.key := fun hh => hk (by rw [List.map_cons, hh]; exact List.mem_cons_self _ _)
            rw [h2 k (fun hh => hk (by rw [List.map_cons]; exact List.mem_cons_of_mem _ hh)),
              mapGet_mapSet_ne _ _ _ _ hne]
          · intro k hk hpresent
            by_cases hne : k = p.key
            · subst hne
              by_cases hkrest : p.key ∈ rest.map (·.key)
              · apply h3 p.key hkrest
                simp [mapGet_mapSet_self]
              · simp only [entryUp]
                rw [h2 p.key hkrest, mapGet_mapSet_self, hset]
                rfl
            · rw [List.map_cons] at hk
              rcases List.mem_cons.mp hk with hkey | hrest
              · exact absurd hkey hne
              · apply h3 k hrest
                rw [mapGet_mapSet_ne _ _ _ _ hne]
                exact hpresent

/-- Parallel level run over distinct, self-contained entries: no error,
levels and inits and presence preserved, outside keys untouched, every
present key of the level up afterwards. -/
theorem runStartLevelPar_spec (ks : List String)
    (m : List (String × ServiceContainer)) (w : World) (hnd : ks.Nodup)
    (hsc : ∀ k ∈ ks, ∀ c : ServiceContainer, mapGet m k = some c →
      c.init.selfContained = true) :
    (runStartLevelPar ks m w).2.2 = none
    ∧ (∀ k, entryLevel (runStartLevelPar ks m w).1 k = entryLevel m k
        ∧ entryInit (runStartLevelPar ks m w).1 k = entryInit m k)
    ∧ (∀ k, k ∉ ks → mapGet (runStartLevelPar ks m w).1 k = mapGet m k)
    ∧ (∀ k, k ∈ ks → ∀ c : ServiceContainer, mapGet m k = some c →
        entryUp (runStartLevelPar ks m w).1 k = some true) := by
  rcases startPhase1_spec ks m w 0 hnd hsc with ⟨h1, h2, h3, h4, h5⟩
  rcases startPhase2_spec (sortPends (startPhase1 0 ks m w).2.2.1)
    (startPhase1 0 ks m w).1 (startPhase1 0 ks m w).2.1 with ⟨g1, g2, g3⟩
  have hpendkeys : ∀ k, k ∈ (sortPends (startPhase1 0 ks m w).2.2.1).map (·.key)
      ↔ k ∈ (startPhase1 0 ks m w).2.2.1.map (·.key) :=
    fun k => sortPends_key_mem k _
  refine ⟨?_, ?_, ?_, ?_⟩
  · simp only [runStartLevelPar]
    exact h1
  · intro k
    rcases h3 k with ⟨h3a, h3b⟩
    rcases g1 k with ⟨g1a, g1b⟩
    simp only [runStartLevelPar]
    exact ⟨g1a.trans h3a, g1b.trans h3b⟩
  · intro k hk
    have hnp : k ∉ (sortPends (startPhase1 0 ks m w).2.2.1).map (·.key) := by
      rw [hpendkeys]
      intro hmem
      rcases List.mem_map.mp hmem with ⟨p, hp, hpk⟩
      exact hk (hpk ▸ h2 p hp)
    simp only [runStartLevelPar]
    rw [g2 k hnp]
    exact h4 k hk
  · intro k hk c hc
    simp only [runStartLevelPar]
    rcases h5 k hk c hc with hupT | ⟨hunch, hpend⟩
    · by_cases hkp : k ∈ (sortPends (startPhase1 0 ks m w).2.2.1).map (·.key)
      · apply g3 k hkp
        simp only [entryUp] at hupT
        cases hg : mapGet (startPhase1 0 ks m w).1 k with
        | none => rw [hg] at hupT; cases hupT
        | some c2 => simp
      · rw [entryUp, g2 k hkp]
        exact hupT
    · apply g3 k ((hpendkeys k).mpr hpend)
      rw [hunch]
      rfl

/-- Sequential level run: same state effect on flags as the parallel one. -/
theorem runStartLevelSeq_spec (ks : List String)
    (m : List (String × ServiceContainer)) (w : World) (hnd : ks.Nodup)
    (hsc : ∀ k ∈ ks, ∀ c : ServiceContainer, mapGet m k = some c →
      c.init.selfContained = true) :
    (runStartLevelSeq ks m w).2.2 = none
    ∧ (∀ k, entryLevel (runStartLevelSeq ks m w).1 k = entryLevel m k
        ∧ entryInit (runStartLevelSeq ks m w).1 k = entryInit m k)
    ∧ (∀ k, k ∉ ks → mapGet (runStartLevelSeq ks m w).1 k = mapGet m k)
    ∧ (∀ k, k ∈ ks → ∀ c : ServiceContainer, mapGet m k = some c →
        entryUp (runStartLevelSeq ks m w).1 k = some true) := by
  induction ks generalizing m w with
  | nil =>
      exact ⟨rfl, fun k => ⟨rfl, rfl⟩, fun k _ => rfl, by simp⟩
  | cons k rest ih =>
      have hknotin : k ∉ rest := (List.nodup_cons.mp hnd).1
      have hndrest : rest.Nodup := (List.nodup_cons.mp hnd).2
      have hscr0 : ∀ k' ∈ rest, ∀ c : ServiceContainer, mapGet m k' = some c →
          c.init.selfContained = true :=
        fun k' hk' => hsc k' (List.mem_cons_of_mem _ hk')
      cases hm : mapGet m k with
      | none =>
          have hred : runStartLevelSeq (k :: rest) m w
              = runStartLevelSeq rest m w := by
            simp [runStartLevelSeq, hm]
          rw [hred]
          rcases ih m w hndrest hscr0 with ⟨h1, h2, h3, h4⟩
          refine ⟨h1, h2, ?_, ?_⟩
          · intro k' hk'
            exact h3 k' (fun hh => hk' (List.mem_cons_of_mem _ hh))
          · intro k' hk' c hc
            rcases List.mem_cons.mp hk' with hkey | hrest
            · subst hkey
              rw [hc] at hm
              cases hm
            · exact h4 k' hrest c hc
      | some c =>
          by_cases hup : c.up = true
          · have hred : runStartLevelSeq (k :: rest) m w
                = runStartLevelSeq rest m w := by
              simp [runStartLevelSeq, hm, hup]
            rw [hred]
            rcases ih m w hndrest hscr0 with ⟨h1, h2, h3, h4⟩
            refine ⟨h1, h2, ?_, ?_⟩
            · intro k' hk'
              exact h3 k' (fun hh => hk' (List.mem_cons_of_mem _ hh))
            · intro k' hk' c' hc
              rcases List.mem_cons.mp hk' with hkey | hrest
              · subst hkey
                rw [hc] at hm
                injection hm with hmx
                subst hmx
                have h3k := h3 k' hknotin
                simp [entryUp, h3k, hc, hup]
              · exact h4 k' hrest c' hc
          · rw [Bool.not_eq_true] at hup
            rcases invokeStart_selfContained m w k c
                (hsc k (List.mem_cons_self _ _) c hm) with
              ⟨w', c', hinv, hcup, hclevel, hcinit⟩ | ⟨w', t, d, ev, v, hinv⟩
            · have hred : runStartLevelSeq (k :: rest) m w
                  = runStartLevelSeq rest (mapSet m k c') w' := by
                simp [runStartLevelSeq, hm, hup, hinv]
              rw [hred]
              have hscr : ∀ k' ∈ rest, ∀ c2 : ServiceContainer,
                  mapGet (mapSet m k c') k' = some c2 →
                  c2.init.selfContained = true := by
                intro k' hk' c2 hc2
                have hne : k' ≠ k := fun hh => hknotin (hh ▸ hk')
                rw [mapGet_mapSet_ne _ _ _ _ hne] at hc2
                exact hscr0 k' hk' c2 hc2
              rcases ih (mapSet m k c') w' hndrest hscr with ⟨h1, h2, h3, h4⟩
              refine ⟨h1, ?_, ?_, ?_⟩
              · intro k'
                rcases h2 k' with ⟨h2a, h2b⟩
                rw [h2a, h2b]
                by_cases hne : k' = k
                · subst hne
                  simp [entryLevel, entryInit, mapGet_mapSet_self, hm, hclevel, hcinit]
                · simp [entryLevel, entryInit, mapGet_mapSet_ne _ _ _ _ hne]
              · intro k' hk'
                have hne : k' ≠ k := fun hh => hk' (hh ▸ List.mem_cons_self _ _)
                rw [h3 k' (fun hh => hk' (List.mem_cons_of_mem _ hh)),
                  mapGet_mapSet_ne _ _ _ _ hne]
              · intro k' hk' c2 hc2
                rcases List.mem_cons.mp hk' with hkey | hrest
                · subst hkey
                  have h3k := h3 k' hknotin
                  simp only [entryUp]
                  rw [h3k, mapGet_mapSet_self]
                  simp [hcup]
                · have hne : k' ≠ k := fun hh => hknotin (hh ▸ hrest)
                  exact h4 k' hrest c2
                    (by rw [mapGet_mapSet_ne _ _ _ _ hne]; exact hc2)
            · have hred : runStartLevelSeq (k :: rest) m w
                  = runStartLevelSeq rest
                      (mapSet m k (completeStart (w'.pushLog ev) c v).2)
                      (completeStart (w'.pushLog ev) c v).1 := by
                simp [runStartLevelSeq, hm, hup, hinv]
              rw [hred]
              have hset := completeStart_container (w'.pushLog ev) c v
              have hscr : ∀ k' ∈ rest, ∀ c2 : ServiceContainer,
                  mapGet (mapSet m k (completeStart (w'.pushLog ev) c v).2) k'
                    = some c2 → c2.init.selfContained = true := by
                intro k' hk' c2 hc2
                have hne : k' ≠ k := fun hh => hknotin (hh ▸ hk')
                rw [mapGet_mapSet_ne _ _ _ _ hne] at hc2
                exact hscr0 k' hk' c2 hc2
              rcases ih (mapSet m k (completeStart (w'.pushLog ev) c v).2)
                (completeStart (w'.pushLog ev) c v).1 hndrest hscr with
                ⟨h1, h2, h3, h4⟩
              refine ⟨h1, ?_, ?_, ?_⟩
              · intro k'
                rcases h2 k' with ⟨h2a, h2b⟩
                rw [h2a, h2b]
                by_cases hne : k' = k
                · subst hne
                  simp [entryLevel, entryInit, mapGet_mapSet_self, hm, hset]
                · simp [entryLevel, entryInit, mapGet_mapSet_ne _ _ _ _ hne]
              · intro k' hk'
                have hne : k' ≠ k := fun hh => hk' (hh ▸ List.mem_cons_self _ _)
                rw [h3 k' (fun hh => hk' (List.mem_cons_of_mem _ hh)),
                  mapGet_mapSet_ne _ _ _ _ hne]
              · intro k' hk' c2 hc2
                rcases List.mem_cons.mp hk' with hkey | hrest
                · subst hkey
                  have h3k := h3 k' hknotin
                  simp only [entryUp]
                  rw [h3k, mapGet_mapSet_self, hset]
                  rfl
                · have hne : k' ≠ k := fun hh => hknotin (hh ▸ hrest)
                  exact h4 k' hrest c2
                    (by rw [mapGet_mapSet_ne _ _ _ _ hne]; exact hc2)

/-- Either level-run mode under the same hypotheses. -/
theorem runStartLevel_spec (par : Bool) (ks : List String)
    (m : List (String × ServiceContainer)) (w : World) (hnd : ks.Nodup)
    (hsc : ∀ k ∈ ks, ∀ c : ServiceContainer, mapGet m k = some c →
      c.init.selfContained = true) :
    (runStartLevel par ks m w).2.2 = none
    ∧ (∀ k, entryLevel (runStartLevel par ks m w).1 k = entryLevel m k
        ∧ entryInit (runStartLevel par ks m w).1 k = entryInit m k)
    ∧ (∀ k, k ∉ ks → mapGet (runStartLevel par ks m w).1 k = mapGet m k)
    ∧ (∀ k, k ∈ ks → ∀ c : ServiceContainer, mapGet m k = some c →
        entryUp (runStartLevel par ks m w).1 k = some true) := by
  cases par with
  | true =>
      simpa [runStartLevel] using runStartLevelPar_spec ks m w hnd hsc
  | false =>
      simpa [runStartLevel] using runStartLevelSeq_spec ks m w hnd hsc

def groupKeys : List (Int × List String) → List String
  | [] => []
  | g :: rest => g.2 ++ groupKeys rest

theorem groupKeys_addToGroups (gs : List (Int × List String)) (lv : Int)
    (k : String) :
    (groupKeys (addToGroups gs lv k)).Perm (groupKeys gs ++ [k]) := by
  induction gs with
  | nil => simp [addToGroups, groupKeys]
  | cons g rest ih =>
      obtain ⟨l, ks⟩ := g
      by_cases h : l = lv
      · simp only [addToGroups, h, if_true, groupKeys]
        rw [List.append_assoc, List.append_assoc]
        exact List.Perm.append_left ks List.perm_append_comm
      · simp only [addToGroups, h, if_false, groupKeys]
        rw [List.append_assoc]
        exact List.Perm.append_left ks ih

theorem groupByLevel_foldl_perm (entries : List (String × ServiceContainer))
    (gs : List (Int × List String)) :
    (groupKeys (entries.foldl (fun gs kc => addToGroups gs kc.2.level kc.1) gs)).Perm
      (groupKeys gs ++ entries.map Prod.fst) := by
  induction entries generalizing gs with
  | nil => simp
  | cons e rest ih =>
      simp only [List.foldl_cons, List.map_cons]
      refine (ih _).trans ?_
      have hp := (groupKeys_addToGroups gs e.2.level e.1).append_right
        (rest.map Prod.fst)
      rw [List.append_assoc] at hp
      simpa using hp

theorem groupByLevel_keys_perm (entries : List (String × ServiceContainer)) :
    (groupKeys (groupByLevel entries)).Perm (entries.map Prod.fst) := by
  simpa [groupByLevel, groupKeys] using groupByLevel_foldl_perm entries []

theorem groupKeys_nodup_buckets (gs : List (Int × List String))
    (h : (groupKeys gs).Nodup) : ∀ g ∈ gs, g.2.Nodup := by
  induction gs with
  | nil => simp
  | cons g rest ih =>
      intro g' hg'
      rcases List.mem_cons.mp hg' with hh | ht
      · subst hh
        exact (List.nodup_append.mp (by simpa [groupKeys] using h)).1
      · exact ih (List.nodup_append.mp (by simpa [groupKeys] using h)).2.1 g' ht

theorem mem_groupKeys_of_bucket (gs : List (Int × List String)) (lv : Int)
    (ks : List String) (k : String) (hg : (lv, ks) ∈ gs) (hk : k ∈ ks) :
    k ∈ groupKeys gs := by
  induction gs with
  | nil => cases hg
  | cons g rest ih =>
      rcases List.mem_cons.mp hg with hh | ht
      · subst hh
        simp only [groupKeys, List.mem_append]
        exact Or.inl hk
      · simp only [groupKeys, List.mem_append]
        exact Or.inr (ih ht)

theorem mem_of_mapGet_eq_some {α : Type} (m : List (String × α)) (k : String)
    (v : α) (h : mapGet m k = some v) : (k, v) ∈ m := by
  induction m with
  | nil => cases h
  | cons kv rest ih =>
      by_cases hh : kv.1 = k
      · simp only [mapGet, hh, if_true] at h
        cases h
        rw [← hh]
        exact List.mem_cons_self _ _
      · simp only [mapGet, hh, if_false] at h
        exact List.mem_cons_of_mem _ (ih h)

theorem mapGet_eq_some_of_mem {α : Type} (m : List (String × α)) (k : String)
    (v : α) (hnd : (m.map Prod.fst).Nodup) (h : (k, v) ∈ m) :
    mapGet m k = some v := by
  induction m with
  | nil => cases h
  | cons kv rest ih =>
      rw [List.map_cons, List.nodup_cons] at hnd
      rcases List.mem_cons.mp h with hh | ht
      · subst hh
        simp [mapGet]
      · have hne : kv.1 ≠ k := by
          intro heq
          apply hnd.1
          rw [heq]
          exact List.mem_map.mpr ⟨(k, v), ht, rfl⟩
        simp only [mapGet, hne, if_false]
        exact ih hnd.2 ht

/-- Every init of the map is self-contained (never throws, never reads). -/
def AllSelfContained (m : List (String × ServiceContainer)) : Prop :=
  ∀ k, ∀ c : ServiceContainer, mapGet m k = some c → c.init.selfContained = true

theorem AllSelfContained.of_init_preserved
    (m m' : List (String × ServiceContainer))
    (hpres : ∀ k, entryInit m' k = entryInit m k)
    (h : AllSelfContained m) : AllSelfContained m' := by
  intro k c hc
  have hk := hpres k
  rw [entryInit, entryInit, hc] at hk
  cases hm : mapGet m k with
  | none => rw [hm] at hk; cases hk
  | some c0 =>
      rw [hm] at hk
      have hinit : c.init = c0.init := by
        simpa using hk
      rw [hinit]
      exact h k c0 hm

theorem FrogeServer.plugins_withMap (s : FrogeServer)
    (m : List (String × ServiceContainer)) : (s.withMap m).plugins = s.plugins := rfl

theorem FrogeServer.config_withMap (s : FrogeServer)
    (m : List (String × ServiceContainer)) : (s.withMap m).config = s.config := rfl

/-- `startPlugins` on a server without plugin bindings is a no-op. -/
theorem startPluginsF_noPlugins (fuel : Nat) (s : FrogeServer) (w : World)
    (level : Int) (h : s.plugins = []) (hf : 1 ≤ fuel) :
    startPluginsF fuel s w level = (s, w, none) := by
  cases fuel with
  | zero => omega
  | succ n => simp [startPluginsF, h, pluginsGet]

/-- The level loop of `startInternal` on a plugin-free registry with
distinct, self-contained entries: no error; plugins and configuration
untouched; levels, inits and presence preserved; keys outside the listed
groups untouched; every present key listed in a group is up afterwards. -/
theorem startLevelsGo_spec (groups : List (Int × List String)) (fuel : Nat)
    (s : FrogeServer) (w : World) (tl : Option Int)
    (hplug : s.plugins = []) (hfuel : groups.length + 1 ≤ fuel)
    (hnd : ∀ g ∈ groups, (g.2 : List String).Nodup)
    (hsc : AllSelfContained s.map) :
    (startLevelsGo fuel s w groups tl).2.2 = none
    ∧ (startLevelsGo fuel s w groups tl).1.plugins = s.plugins
    ∧ (startLevelsGo fuel s w groups tl).1.config = s.config
    ∧ (∀ k, entryLevel (startLevelsGo fuel s w groups tl).1.map k
          = entryLevel s.map k
        ∧ entryInit (startLevelsGo fuel s w groups tl).1.map k
          = entryInit s.map k)
    ∧ (∀ k, k ∉ groupKeys groups →
        mapGet (startLevelsGo fuel s w groups tl).1.map k = mapGet s.map k)
    ∧ (∀ k, k ∈ groupKeys groups → ∀ c : ServiceContainer,
        mapGet s.map k = some c →
        entryUp (startLevelsGo fuel s w groups tl).1.map k = some true) := by
  induction groups generalizing fuel s w with
  | nil =>
      cases fuel with
      | zero => omega
      | succ n =>
          exact ⟨rfl, rfl, rfl, fun k => ⟨rfl, rfl⟩, fun k _ => rfl,
            by simp [groupKeys]⟩
  | cons g rest ih =>
      cases fuel with
      | zero => omega
      | succ n =>
          obtain ⟨lv, ks⟩ := g
          rcases runStartLevel_spec s.config.parallelStartGroups ks s.map w
            (hnd (lv, ks) (List.mem_cons_self _ _))
            (fun k _ c hc => hsc k c hc) with ⟨r1, r2, r3, r4⟩
          have hsc' : AllSelfContained
              (runStartLevel s.config.parallelStartGroups ks s.map w).1 :=
            AllSelfContained.of_init_preserved s.map _ (fun k => (r2 k).2) hsc
          have hfuel' : rest.length + 1 ≤ n := by
            simp only [List.length_cons] at hfuel
            omega
          have hpl := startPluginsF_noPlugins n
            (s.withMap (runStartLevel s.config.parallelStartGroups ks s.map w).1)
            (runStartLevel s.config.parallelStartGroups ks s.map w).2.1 lv
            hplug (by omega)
          have hbranch : startLevelsGo (n + 1) s w ((lv, ks) :: rest) tl
              = startLevelsGo n
                  (s.withMap (runStartLevel s.config.parallelStartGroups ks s.map w).1)
                  (runStartLevel s.config.parallelStartGroups ks s.map w).2.1
                  rest tl := by
            by_cases htl : tl = some lv
            · simp [startLevelsGo, r1, htl]
            · simp [startLevelsGo, r1, htl, hpl]
          rw [hbranch]
          rcases ih n
            (s.withMap (runStartLevel s.config.parallelStartGroups ks s.map w).1)
            (runStartLevel s.config.parallelStartGroups ks s.map w).2.1
            hplug hfuel'
            (fun g hg => hnd g (List.mem_cons_of_mem _ hg)) hsc' with
            ⟨i1, i2, i3, i4, i5, i6⟩
          refine ⟨i1, i2, i3, ?_, ?_, ?_⟩
          · intro k
            rcases i4 k with ⟨i4a, i4b⟩
            rcases r2 k with ⟨r2a, r2b⟩
            exact ⟨i4a.trans r2a, i4b.trans r2b⟩
          · intro k hk
            have hks : k ∉ ks := fun hh => hk (by
              simp only [groupKeys, List.mem_append]
              exact Or.inl hh)
            have hgr : k ∉ groupKeys rest := fun hh => hk (by
              simp only [groupKeys, List.mem_append]
              exact Or.inr hh)
            rw [i5 k hgr]
            exact r3 k hks
          · intro k hk c hc
            have hpresent : ∃ c', mapGet
                (runStartLevel s.config.parallelStartGroups ks s.map w).1 k
                = some c' := by
              rcases r2 k with ⟨r2a, _⟩
              rw [entryLevel, entryLevel, hc] at r2a
              cases hg : mapGet
                  (runStartLevel s.config.parallelStartGroups ks s.map w).1 k with
              | none => rw [hg] at r2a; cases r2a
              | some c' => exact ⟨c', rfl⟩
            rcases List.mem_append.mp (by simpa [groupKeys] using hk) with hks | hgr
            · have hupT := r4 k hks c hc
              by_cases hkrest : k ∈ groupKeys rest
              · rcases hpresent with ⟨c', hc'⟩
                exact i6 k hkrest c' hc'
              · rw [entryUp, i5 k hkrest]
                exact hupT
            · rcases hpresent with ⟨c', hc'⟩
              exact i6 k hgr c' hc'

theorem addToGroups_length (gs : List (Int × List String)) (lv : Int) (k : String) :
    (addToGroups gs lv k).length ≤ gs.length + 1 := by
  induction gs with
  | nil => simp [addToGroups]
  | cons g rest ih =>
      obtain ⟨l, ks⟩ := g
      by_cases h : l = lv
      · simp [addToGroups, h]
      · simp only [addToGroups, h, if_false, List.length_cons]
        omega

theorem groupByLevel_foldl_length (entries : List (String × ServiceContainer))
    (gs : List (Int × List String)) :
    (entries.foldl (fun gs kc => addToGroups gs kc.2.level kc.1) gs).length
      ≤ gs.length + entries.length := by
  induction entries generalizing gs with
  | nil => simp
  | cons e rest ih =>
      simp only [List.foldl_cons, List.length_cons]
      have h1 := ih (addToGroups gs e.2.level e.1)
      have h2 := addToGroups_length gs e.2.level e.1
      omega

theorem groupByLevel_length (entries : List (String × ServiceContainer)) :
    (groupByLevel entries).length ≤ entries.length := by
  have := groupByLevel_foldl_length entries []
  simpa [groupByLevel] using this

/-- C3 counterexample: in the reference graph extended with a third level,
`test4` is declared at the same level as the target `test3` (a sibling),
yet `only("test3")` leaves it not started — the claimed "levels ≤ the
target level, siblings included" does not hold; the realized start events
are [2, 1, 3] with no 4. -/
theorem c3_counterexample :
    entryLevel onlyServer.map "test4" = entryLevel onlyServer.map "test3"
    ∧ entryUp (onlyF 40 onlyServer w0 "test3").1.map "test4" = some false
    ∧ (onlyF 40 onlyServer w0 "test3").2.1.log = [2, 1, 3] :=
  ⟨rfl, rfl, rfl⟩

/-- C3 (amended): `only(name)` starts exactly the definitions at levels
strictly below the named definition level, plus the named definition
itself — a sibling at the same level is not started.  Stated on a
plugin-free registry with distinct keys and self-contained inits: after
`only(target)` the up flag of every registered entry is its old flag
joined with (strictly lower level or being the target). -/
theorem c3_only_bounded_start (fuel : Nat) (s : FrogeServer) (w : World)
    (target : String) (tc : ServiceContainer)
    (hplug : s.plugins = [])
    (hndm : (s.map.map Prod.fst).Nodup)
    (hsc : AllSelfContained s.map)
    (htarget : mapGet s.map target = some tc)
    (htup : tc.up = false)
    (hfuel : s.map.length + 3 ≤ fuel) :
    ∀ k, ∀ c : ServiceContainer, mapGet s.map k = some c →
      entryUp (onlyF fuel s w target).1.map k
        = some (c.up || decide (c.level < tc.level) || decide (k = target)) := by
  obtain ⟨f1, rfl⟩ : ∃ f1, fuel = f1 + 1 := ⟨fuel - 1, by omega⟩
  obtain ⟨f2, rfl⟩ : ∃ f2, f1 = f2 + 1 := ⟨f1 - 1, by omega⟩
  have hkeep : ∀ kc : String × ServiceContainer,
      keepForStart (some target) (some tc.level) kc
        = (decide (kc.1 = target) || decide (kc.2.level < tc.level)) := by
    intro kc
    rfl
  have hfilterkeys :
      (((s.map.filter (keepForStart (some target) (some tc.level))).map
        Prod.fst)).Nodup :=
    List.Nodup.sublist (List.Sublist.map _ (List.filter_sublist _)) hndm
  have hgknodup : (groupKeys (groupByLevel
      (s.map.filter (keepForStart (some target) (some tc.level))))).Nodup :=
    ((groupByLevel_keys_perm _).nodup_iff).mpr hfilterkeys
  have hglen := groupByLevel_length
    (s.map.filter (keepForStart (some target) (some tc.level)))
  have hflen := List.length_filter_le
    (keepForStart (some target) (some tc.level)) s.map
  rcases startLevelsGo_spec
      (groupByLevel (s.map.filter (keepForStart (some target) (some tc.level))))
      f2 s w (some tc.level) hplug (by omega)
      (groupKeys_nodup_buckets _ hgknodup) hsc with ⟨i1, i2, i3, i4, i5, i6⟩
  have hinternal : startInternalF (f2 + 1) s w (some target)
      = startLevelsGo f2 s w
          (groupByLevel (s.map.filter (keepForStart (some target) (some tc.level))))
          (some tc.level) := by
    simp [startInternalF, htarget,
      startPluginsF_noPlugins f2 s w (-1) hplug (by omega)]
  have hsplit : startLevelsGo f2 s w
      (groupByLevel (s.map.filter (keepForStart (some target) (some tc.level))))
      (some tc.level)
      = ((startLevelsGo f2 s w
          (groupByLevel (s.map.filter (keepForStart (some target) (some tc.level))))
          (some tc.level)).1,
         (startLevelsGo f2 s w
          (groupByLevel (s.map.filter (keepForStart (some target) (some tc.level))))
          (some tc.level)).2.1, (none : Option String)) := by
    rw [← i1]
  have honly : (onlyF (f2 + 1 + 1) s w target).1
      = (startLevelsGo f2 s w
          (groupByLevel (s.map.filter (keepForStart (some target) (some tc.level))))
          (some tc.level)).1 := by
    simp only [onlyF, htarget, htup, Bool.false_eq_true, if_false, hinternal]
    rw [hsplit]
  intro k c hc
  rw [honly]
  have hmemIff : k ∈ groupKeys (groupByLevel
      (s.map.filter (keepForStart (some target) (some tc.level))))
      ↔ k ∈ ((s.map.filter (keepForStart (some target) (some tc.level))).map
          Prod.fst) :=
    (groupByLevel_keys_perm _).mem_iff
  by_cases hsel : (decide (k = target) || decide (c.level < tc.level)) = true
  · have hmem : k ∈ groupKeys (groupByLevel
        (s.map.filter (keepForStart (some target) (some tc.level)))) := by
      rw [hmemIff]
      refine List.mem_map.mpr ⟨(k, c), ?_, rfl⟩
      refine List.mem_filter.mpr ⟨mem_of_mapGet_eq_some s.map k c hc, ?_⟩
      rw [hkeep]
      exact hsel
    rw [i6 k hmem c hc]
    have hsel2 := hsel
    simp only [Bool.or_eq_true] at hsel2
    rcases hsel2 with h | h
    · simp [h]
    · simp [h]
  · have hnotmem : k ∉ groupKeys (groupByLevel
        (s.map.filter (keepForStart (some target) (some tc.level)))) := by
      rw [hmemIff]
      intro hmem
      rcases List.mem_map.mp hmem with ⟨p, hkc2, hfst⟩
      rcases List.mem_filter.mp hkc2 with ⟨hin, hkeep2⟩
      have hc2 : mapGet s.map p.1 = some p.2 :=
        mapGet_eq_some_of_mem s.map p.1 p.2 hndm hin
      rw [hfst, hc] at hc2
      injection hc2 with hcc
      rw [hkeep, hfst, ← hcc] at hkeep2
      exact hsel hkeep2
    rw [entryUp, i5 k hnotmem, hc]
    have hor : (decide (k = target) || decide (c.level < tc.level)) = false :=
      Bool.eq_false_iff.mpr hsel
    rcases Bool.or_eq_false_iff.mp hor with ⟨h1, h2⟩
    simp [h1, h2]

/-- Three-entry plugin-free registry for the C3 witness: one entry below
the target level, the target, and a sibling at the target level. -/
def c3WitnessServer : FrogeServer :=
  .mk [("a", { level := 0, init := .sync [1] (.str "a"), serverSymbol := 0 }),
       ("b", { level := 1, init := .sync [2] (.str "b"), serverSymbol := 0 }),
       ("c", { level := 1, init := .sync [3] (.str "c"), serverSymbol := 0 })]
      [] {} [] 1 0

theorem c3WitnessServer_sc : AllSelfContained c3WitnessServer.map := by
  intro k c hc
  simp only [c3WitnessServer, FrogeServer.map, mapGet] at hc
  split at hc
  · cases hc
    rfl
  · split at hc
    · cases hc
      rfl
    · split at hc
      · cases hc
        rfl
      · cases hc

/-- Witness for C3 (amended) at the concrete three-entry registry with
target `b`: `a` (lower level) and `b` start, the sibling `c` does not. -/
theorem c3_only_bounded_start_witness :
    entryUp (onlyF 10 c3WitnessServer w0 "b").1.map "a" = some true
    ∧ entryUp (onlyF 10 c3WitnessServer w0 "b").1.map "b" = some true
    ∧ entryUp (onlyF 10 c3WitnessServer w0 "b").1.map "c" = some false := by
  have h := c3_only_bounded_start 10 c3WitnessServer w0 "b"
    { level := 1, init := .sync [2] (.str "b"), serverSymbol := 0 }
    rfl (by decide) c3WitnessServer_sc rfl rfl (by decide)
  refine ⟨?_, ?_, ?_⟩
  · exact h "a" { level := 0, init := .sync [1] (.str "a"), serverSymbol := 0 } rfl
  · exact h "b" { level := 1, init := .sync [2] (.str "b"), serverSymbol := 0 } rfl
  · exact h "c" { level := 1, init := .sync [3] (.str "c"), serverSymbol := 0 } rfl

/-! ## The instance-presence invariant (C7) -/

/-- The stored instance is present exactly when the running flag is set. -/
def InvC (c : ServiceContainer) : Prop := c.value.isSome = c.up

def InvMap (m : List (String × ServiceContainer)) : Prop :=
  ∀ kc ∈ m, InvC kc.2

/-- The invariant over a whole composition: every container of the
registry satisfies it, recursively through every plugin factory and every
materialized sub-registry. -/
inductive InvServer : FrogeServer → Prop where
  | intro (s : FrogeServer) (hmap : InvMap s.map)
      (hfac : ∀ lp ∈ s.plugins, ∀ pc ∈ (lp : Int × List PluginContainer).2,
        InvServer (PluginContainer.factory pc))
      (hsub : ∀ lp ∈ s.plugins, ∀ pc ∈ (lp : Int × List PluginContainer).2,
        ∀ sub, PluginContainer.server pc = some sub → InvServer sub) :
      InvServer s

def PCInv (pc : PluginContainer) : Prop :=
  InvServer pc.factory ∧ ∀ sub, pc.server = some sub → InvServer sub

def PCsInv (cs : List PluginContainer) : Prop := ∀ pc ∈ cs, PCInv pc

def PluginsInv (gs : List (Int × List PluginContainer)) : Prop :=
  ∀ lp ∈ gs, PCsInv (lp : Int × List PluginContainer).2

theorem InvServer.map_inv {s : FrogeServer} (h : InvServer s) : InvMap s.map := by
  cases h
  assumption

theorem InvServer.plugins_inv {s : FrogeServer} (h : InvServer s) :
    PluginsInv s.plugins := by
  cases h with
  | intro _ hmap hfac hsub =>
      intro lp hlp pc hpc
      exact ⟨hfac lp hlp pc hpc, hsub lp hlp pc hpc⟩

theorem InvServer.mk2 (s : FrogeServer) (hmap : InvMap s.map)
    (hplug : PluginsInv s.plugins) : InvServer s :=
  .intro s hmap (fun lp hlp pc hpc => (hplug lp hlp pc hpc).1)
    (fun lp hlp pc hpc => (hplug lp hlp pc hpc).2)

theorem InvServer.withMap {s : FrogeServer} (h : InvServer s)
    {m : List (String × ServiceContainer)} (hm : InvMap m) :
    InvServer (s.withMap m) :=
  .mk2 _ hm h.plugins_inv

theorem InvServer.withPlugins {s : FrogeServer} (h : InvServer s)
    {gs : List (Int × List PluginContainer)} (hg : PluginsInv gs) :
    InvServer (s.withPlugins gs) :=
  .mk2 _ h.map_inv hg

theorem InvServer.configure {s : FrogeServer} (h : InvServer s)
    (c : FrogeConfig) : InvServer (s.configure c) :=
  .mk2 _ h.map_inv h.plugins_inv

theorem InvMap.nil : InvMap [] := fun _ h => absurd h (List.not_mem_nil _)

theorem InvMap_set {m : List (String × ServiceContainer)} (h : InvMap m)
    (k : String) {c : ServiceContainer} (hc : InvC c) : InvMap (mapSet m k c) := by
  induction m with
  | nil =>
      intro kc hkc
      rcases List.mem_singleton.mp hkc with rfl
      exact hc
  | cons kv rest ih =>
      obtain ⟨k1, c1⟩ := kv
      intro kc hkc
      by_cases hh : k1 = k
      · simp only [mapSet, hh, if_true] at hkc
        rcases List.mem_cons.mp hkc with rfl | ht
        · exact hc
        · exact h kc (List.mem_cons_of_mem _ ht)
      · simp only [mapSet, hh, if_false] at hkc
        rcases List.mem_cons.mp hkc with rfl | ht
        · exact h (k1, c1) (List.mem_cons_self _ _)
        · exact ih (fun kc2 hkc2 => h kc2 (List.mem_cons_of_mem _ hkc2)) kc ht

theorem InvMap_delete {m : List (String × ServiceContainer)} (h : InvMap m)
    (k : String) : InvMap (mapDelete m k) := by
  induction m with
  | nil => exact InvMap.nil
  | cons kv rest ih =>
      obtain ⟨k1, c1⟩ := kv
      intro kc hkc
      by_cases hh : k1 = k
      · simp only [mapDelete, hh, if_true] at hkc
        exact h kc (List.mem_cons_of_mem _ hkc)
      · simp only [mapDelete, hh, if_false] at hkc
        rcases List.mem_cons.mp hkc with rfl | ht
        · exact h (k1, c1) (List.mem_cons_self _ _)
        · exact ih (fun kc2 hkc2 => h kc2 (List.mem_cons_of_mem _ hkc2)) kc ht

theorem InvMap_mergeInto {host sub : List (String × ServiceContainer)}
    (hh : InvMap host) (hs : InvMap sub) : InvMap (mergeInto host sub) := by
  induction sub generalizing host with
  | nil => exact hh
  | cons kv rest ih =>
      have hkv : InvC kv.2 := hs kv (List.mem_cons_self _ _)
      exact ih (InvMap_set hh kv.1 hkv)
        (fun kc hkc => hs kc (List.mem_cons_of_mem _ hkc))

theorem InvMap_deleteAllFrom {host : List (String × ServiceContainer)}
    (sub : List (String × ServiceContainer)) (hh : InvMap host) :
    InvMap (deleteAllFrom host sub) := by
  induction sub generalizing host with
  | nil => exact hh
  | cons kv rest ih => exact ih (InvMap_delete hh kv.1)

theorem invokeStart_done_InvC (m : List (String × ServiceContainer)) (w : World)
    (k : String) (c : ServiceContainer) (w' : World) (c' : ServiceContainer)
    (h : invokeStart m w k c = (w', .done c')) : InvC c' := by
  cases hi : c.init with
  | sync ev v =>
      simp only [invokeStart, hi] at h
      cases h
      rw [InvC, completeStart_container]
      rfl
  | timer d ev v => simp [invokeStart, hi] at h
  | asyncFn ev v => simp [invokeStart, hi] at h
  | plugInit =>
      simp only [invokeStart, hi] at h
      cases h
      rw [InvC, completeStart_container]
      rfl
  | readService dep ev =>
      simp only [invokeStart, hi] at h
      cases hacc : mapAccess m dep with
      | error e => rw [hacc] at h; cases h
      | ok v? =>
          rw [hacc] at h
          cases h
          rw [InvC, completeStart_container]
          rfl
  | throws msg => simp [invokeStart, hi] at h

theorem startPhase1_InvMap (ks : List String)
    (m : List (String × ServiceContainer)) (w : World) (idx : Nat)
    (h : InvMap m) : InvMap (startPhase1 idx ks m w).1 := by
  induction ks generalizing idx m w with
  | nil => exact h
  | cons k rest ih =>
      cases hm : mapGet m k with
      | none =>
          have hred : (startPhase1 idx (k :: rest) m w).1
              = (startPhase1 (idx + 1) rest m w).1 := by
            simp [startPhase1, hm]
          rw [hred]
          exact ih _ _ _ h
      | some c =>
          by_cases hup : c.up = true
          · have hred : (startPhase1 idx (k :: rest) m w).1
                = (startPhase1 (idx + 1) rest m w).1 := by
              simp [startPhase1, hm, hup]
            rw [hred]
            exact ih _ _ _ h
          · rw [Bool.not_eq_true] at hup
            cases hinv : invokeStart m w k c with
            | mk w' outcome =>
                cases outcome with
                | done c' =>
                    have hred : (startPhase1 idx (k :: rest) m w).1
                        = (startPhase1 (idx + 1) rest (mapSet m k c') w').1 := by
                      simp [startPhase1, hm, hup, hinv]
                    rw [hred]
                    exact ih _ _ _
                      (InvMap_set h k (invokeStart_done_InvC m w k c w' c' hinv))
                | pend t d ev v =>
                    have hred : (startPhase1 idx (k :: rest) m w).1
                        = (startPhase1 (idx + 1) rest m w').1 := by
                      simp [startPhase1, hm, hup, hinv]
                    rw [hred]
                    exact ih _ _ _ h
                | fail msg =>
                    have hred : (startPhase1 idx (k :: rest) m w).1
                        = (startPhase1 (idx + 1) rest m w').1 := by
                      simp [startPhase1, hm, hup, hinv]
                    rw [hred]
                    exact ih _ _ _ h

theorem startPhase2_InvMap (ps : List PendItem)
    (m : List (String × ServiceContainer)) (w : World) (h : InvMap m) :
    InvMap (startPhase2 ps m w).1 := by
  induction ps generalizing m w with
  | nil => exact h
  | cons p rest ih =>
      cases hm : mapGet m p.key with
      | none =>
          have hred : (startPhase2 (p :: rest) m w).1
              = (startPhase2 rest m (w.pushLog p.events)).1 := by
            simp [startPhase2, hm]
          rw [hred]
          exact ih _ _ h
      | some c =>
          have hred : (startPhase2 (p :: rest) m w).1
              = (startPhase2 rest
                  (mapSet m p.key (completeStart (w.pushLog p.events) c p.ret).2)
                  (completeStart (w.pushLog p.events) c p.ret).1).1 := by
            simp [startPhase2, hm]
          rw [hred]
          refine ih _ _ (InvMap_set h p.key ?_)
          rw [InvC, completeStart_container]
          rfl

theorem runStartLevel_InvMap (par : Bool) (ks : List String)
    (m : List (String × ServiceContainer)) (w : World) (h : InvMap m) :
    InvMap (runStartLevel par ks m w).1 := by
  cases par with
  | true =>
      simp only [runStartLevel, if_true]
      exact startPhase2_InvMap _ _ _ (startPhase1_InvMap _ _ _ _ h)
  | false =>
      simp only [runStartLevel, Bool.false_eq_true, if_false]
      induction ks generalizing m w with
      | nil => exact h
      | cons k rest ih =>
          cases hm : mapGet m k with
          | none =>
              have hred : (runStartLevelSeq (k :: rest) m w).1
                  = (runStartLevelSeq rest m w).1 := by
                simp [runStartLevelSeq, hm]
              rw [hred]
              exact ih _ _ h
          | some c =>
              by_cases hup : c.up = true
              · have hred : (runStartLevelSeq (k :: rest) m w).1
                    = (runStartLevelSeq rest m w).1 := by
                  simp [runStartLevelSeq, hm, hup]
                rw [hred]
                exact ih _ _ h
              · rw [Bool.not_eq_true] at hup
                cases hinv : invokeStart m w k c with
                | mk w' outcome =>
                    cases outcome with
                    | done c' =>
                        have hred : (runStartLevelSeq (k :: rest) m w).1
                            = (runStartLevelSeq rest (mapSet m k c') w').1 := by
                          simp [runStartLevelSeq, hm, hup, hinv]
                        rw [hred]
                        exact ih _ _
                          (InvMap_set h k (invokeStart_done_InvC m w k c w' c' hinv))
                    | pend t d ev v =>
                        have hred : (runStartLevelSeq (k :: rest) m w).1
                            = (runStartLevelSeq rest
                                (mapSet m k (completeStart (w'.pushLog ev) c v).2)
                                (completeStart (w'.pushLog ev) c v).1).1 := by
                          simp [runStartLevelSeq, hm, hup, hinv]
                        rw [hred]
                        refine ih _ _ (InvMap_set h k ?_)
                        rw [InvC, completeStart_container]
                        rfl
                    | fail msg =>
                        have hred : (runStartLevelSeq (k :: rest) m w).1 = m := by
                          simp [runStartLevelSeq, hm, hup, hinv]
                        rw [hred]
                        exact h

theorem stopCleanup_container (w : World) (c : ServiceContainer) :
    (stopCleanup w c).2 = { c with value := none, up := false } := by
  simp only [stopCleanup]
  split <;> rfl

theorem invokeStop_done_InvC (w : World) (c : ServiceContainer) (w' : World)
    (c' : ServiceContainer) (h : invokeStop w c = (w', .done c')) : InvC c' := by
  cases hd : c.destroy with
  | none => simp [invokeStop, hd] at h
  | some d =>
      cases hv : c.value with
      | none => simp [invokeStop, hd, hv] at h
      | some v =>
          cases d with
          | sync ev =>
              simp only [invokeStop, hd, hv] at h
              cases h
              rw [InvC, stopCleanup_container]
              rfl
          | slow dl ev => simp [invokeStop, hd, hv] at h
          | throws msg => simp [invokeStop, hd, hv] at h

theorem stopPhase1_InvMap (ks : List String)
    (m : List (String × ServiceContainer)) (w : World) (idx : Nat)
    (h : InvMap m) : InvMap (stopPhase1 idx ks m w).1 := by
  induction ks generalizing idx m w with
  | nil => exact h
  | cons k rest ih =>
      cases hm : mapGet m k with
      | none =>
          have hred : (stopPhase1 idx (k :: rest) m w).1
              = (stopPhase1 (idx + 1) rest m w).1 := by
            simp [stopPhase1, hm]
          rw [hred]
          exact ih _ _ _ h
      | some c =>
          cases hinv : invokeStop w c with
          | mk w' outcome =>
              cases outcome with
              | skip =>
                  have hred : (stopPhase1 idx (k :: rest) m w).1
                      = (stopPhase1 (idx + 1) rest m w').1 := by
                    simp [stopPhase1, hm, hinv]
                  rw [hred]
                  exact ih _ _ _ h
              | done c' =>
                  have hred : (stopPhase1 idx (k :: rest) m w).1
                      = (stopPhase1 (idx + 1) rest (mapSet m k c') w').1 := by
                    simp [stopPhase1, hm, hinv]
                  rw [hred]
                  exact ih _ _ _
                    (InvMap_set h k (invokeStop_done_InvC w c w' c' hinv))
              | pend d =>
                  have hred : (stopPhase1 idx (k :: rest) m w).1
                      = (stopPhase1 (idx + 1) rest m w').1 := by
                    simp [stopPhase1, hm, hinv]
                  rw [hred]
                  exact ih _ _ _ h
              | fail msg =>
                  have hred : (stopPhase1 idx (k :: rest) m w).1
                      = (stopPhase1 (idx + 1) rest m w').1 := by
                    simp [stopPhase1, hm, hinv]
                  rw [hred]
                  exact ih _ _ _ h

theorem stopPhase2_InvMap (ps : List StopPend)
    (m : List (String × ServiceContainer)) (w : World) (h : InvMap m) :
    InvMap (stopPhase2 ps m w).1 := by
  induction ps generalizing m w with
  | nil => exact h
  | cons p rest ih =>
      cases hm : mapGet m p.key with
      | none =>
          have hred : (stopPhase2 (p :: rest) m w).1 = (stopPhase2 rest m w).1 := by
            simp [stopPhase2, hm]
          rw [hred]
          exact ih _ _ h
      | some c =>
          have hred : (stopPhase2 (p :: rest) m w).1
              = (stopPhase2 rest (mapSet m p.key (stopCleanup w c).2)
                  (stopCleanup w c).1).1 := by
            simp [stopPhase2, hm]
          rw [hred]
          refine ih _ _ (InvMap_set h p.key ?_)
          rw [InvC, stopCleanup_container]
          rfl

theorem runStopLevel_InvMap (par : Bool) (ks : List String)
    (m : List (String × ServiceContainer)) (w : World) (h : InvMap m) :
    InvMap (runStopLevel par ks m w).1 := by
  cases par with
  | true =>
      simp only [runStopLevel, if_true]
      exact stopPhase2_InvMap _ _ _ (stopPhase1_InvMap _ _ _ _ h)
  | false =>
      simp only [runStopLevel, Bool.false_eq_true, if_false]
      induction ks generalizing m w with
      | nil => exact h
      | cons k rest ih =>
          cases hm : mapGet m k with
          | none =>
              have hred : (runStopLevelSeq (k :: rest) m w).1
                  = (runStopLevelSeq rest m w).1 := by
                simp [runStopLevelSeq, hm]
              rw [hred]
              exact ih _ _ h
          | some c =>
              cases hinv : invokeStop w c with
              | mk w' outcome =>
                  cases outcome with
                  | skip =>
                      have hred : (runStopLevelSeq (k :: rest) m w).1
                          = (runStopLevelSeq rest m w').1 := by
                        simp [runStopLevelSeq, hm, hinv]
                      rw [hred]
                      exact ih _ _ h
                  | done c' =>
                      have hred : (runStopLevelSeq (k :: rest) m w).1
                          = (runStopLevelSeq rest (mapSet m k c') w').1 := by
                        simp [runStopLevelSeq, hm, hinv]
                      rw [hred]
                      exact ih _ _
                        (InvMap_set h k (invokeStop_done_InvC w c w' c' hinv))
                  | pend d =>
                      have hred : (runStopLevelSeq (k :: rest) m w).1
                          = (runStopLevelSeq rest
                              (mapSet m k (stopCleanup w' c).2)
                              (stopCleanup w' c).1).1 := by
                        simp [runStopLevelSeq, hm, hinv]
                      rw [hred]
                      refine ih _ _ (InvMap_set h k ?_)
                      rw [InvC, stopCleanup_container]
                      rfl
                  | fail msg =>
                      have hred : (runStopLevelSeq (k :: rest) m w).1 = m := by
                        simp [runStopLevelSeq, hm, hinv]
                      rw [hred]
                      exact h

theorem PluginsInv_pluginsGet {gs : List (Int × List PluginContainer)}
    (h : PluginsInv gs) {lv : Int} {cs : List PluginContainer}
    (hg : pluginsGet gs lv = some cs) : PCsInv cs := by
  induction gs with
  | nil => cases hg
  | cons g rest ih =>
      obtain ⟨l, cs0⟩ := g
      by_cases hl : l = lv
      · simp only [pluginsGet, hl, if_true] at hg
        injection hg with hgx
        rw [← hgx]
        exact h (l, cs0) (List.mem_cons_self _ _)
      · simp only [pluginsGet, hl, if_false] at hg
        exact ih (fun lp hlp => h lp (List.mem_cons_of_mem _ hlp)) hg

theorem PluginsInv_pluginsSet {gs : List (Int × List PluginContainer)}
    (h : PluginsInv gs) (lv : Int) {cs : List PluginContainer}
    (hcs : PCsInv cs) : PluginsInv (pluginsSet gs lv cs) := by
  induction gs with
  | nil =>
      intro lp hlp
      rcases List.mem_singleton.mp hlp with rfl
      exact hcs
  | cons g rest ih =>
      obtain ⟨l, cs0⟩ := g
      intro lp hlp
      by_cases hl : l = lv
      · simp only [pluginsSet, hl, if_true] at hlp
        rcases List.mem_cons.mp hlp with rfl | ht
        · exact hcs
        · exact h lp (List.mem_cons_of_mem _ ht)
      · simp only [pluginsSet, hl, if_false] at hlp
        rcases List.mem_cons.mp hlp with rfl | ht
        · exact h (l, cs0) (List.mem_cons_self _ _)
        · exact ih (fun lp2 hlp2 => h lp2 (List.mem_cons_of_mem _ hlp2)) lp ht

theorem PCsInv_reverse {cs : List PluginContainer} (h : PCsInv cs) :
    PCsInv cs.reverse :=
  fun pc hpc => h pc (List.mem_reverse.mp hpc)

theorem PluginsInv_pluginsAdd {gs : List (Int × List PluginContainer)}
    (h : PluginsInv gs) (after : Int) {c : PluginContainer} (hc : PCInv c) :
    PluginsInv (pluginsAdd after c gs) := by
  induction gs with
  | nil =>
      intro lp hlp
      rcases List.mem_singleton.mp hlp with rfl
      intro pc hpc
      rcases List.mem_singleton.mp hpc with rfl
      exact hc
  | cons g rest ih =>
      obtain ⟨l, cs0⟩ := g
      intro lp hlp
      by_cases hl : l = after
      · simp only [pluginsAdd, hl, if_true] at hlp
        rcases List.mem_cons.mp hlp with rfl | ht
        · intro pc hpc
          rcases List.mem_append.mp hpc with hin | hlast
          · exact h (l, cs0) (List.mem_cons_self _ _) pc hin
          · rcases List.mem_singleton.mp hlast with rfl
            exact hc
        · exact h lp (List.mem_cons_of_mem _ ht)
      · simp only [pluginsAdd, hl, if_false] at hlp
        rcases List.mem_cons.mp hlp with rfl | ht
        · exact h (l, cs0) (List.mem_cons_self _ _)
        · exact ih (fun lp2 hlp2 => h lp2 (List.mem_cons_of_mem _ hlp2)) lp ht

theorem InvServer_materializedSub {pc : PluginContainer} (h : PCInv pc)
    (s : FrogeServer) : InvServer (materializedSub s pc) := by
  unfold materializedSub
  split
  · exact h.1.configure s.config
  · exact h.1

theorem PCInv_withServer_some {pc : PluginContainer} (h : PCInv pc)
    {sub : FrogeServer} (hsub : InvServer sub) :
    PCInv (pc.withServer (some sub)) := by
  refine ⟨h.1, ?_⟩
  intro sub2 hsub2
  simp only [PluginContainer.withServer, PluginContainer.server] at hsub2
  cases hsub2
  exact hsub

theorem PCInv_withServer_none {pc : PluginContainer} (h : PCInv pc) :
    PCInv (pc.withServer none) := by
  refine ⟨h.1, ?_⟩
  intro sub2 hsub2
  simp only [PluginContainer.withServer, PluginContainer.server] at hsub2
  cases hsub2

theorem PCsInv_cons {pc : PluginContainer} {rest : List PluginContainer}
    (h1 : PCInv pc) (h2 : PCsInv rest) : PCsInv (pc :: rest) := by
  intro q hq
  rcases List.mem_cons.mp hq with rfl | hq2
  · exact h1
  · exact h2 q hq2

/-- Preservation of the presence-iff-running invariant by the whole
traversal engine, including plugin materialization and teardown. -/
theorem engineInv (fuel : Nat) :
    (∀ s w, InvServer s → InvServer (startF fuel s w).1)
    ∧ (∀ s w k, InvServer s → InvServer (onlyF fuel s w k).1)
    ∧ (∀ s w t, InvServer s → InvServer (startInternalF fuel s w t).1)
    ∧ (∀ s w gs tl, InvServer s → InvServer (startLevelsGo fuel s w gs tl).1)
    ∧ (∀ s w lv, InvServer s → InvServer (startPluginsF fuel s w lv).1)
    ∧ (∀ s w cs, InvServer s → PCsInv cs →
        InvServer (startPluginsGo fuel s w cs).1
        ∧ PCsInv (startPluginsGo fuel s w cs).2.2.1)
    ∧ (∀ s w pc, InvServer s → PCInv pc →
        InvServer (startOnePlugin fuel s w pc).1
        ∧ PCInv (startOnePlugin fuel s w pc).2.2.1)
    ∧ (∀ s w, InvServer s → InvServer (stopF fuel s w).1)
    ∧ (∀ s w gs, InvServer s → InvServer (stopLevelsGo fuel s w gs).1)
    ∧ (∀ s w lv, InvServer s → InvServer (stopPluginsF fuel s w lv).1)
    ∧ (∀ s w cs, InvServer s → PCsInv cs →
        InvServer (stopPluginsGo fuel s w cs).1
        ∧ PCsInv (stopPluginsGo fuel s w cs).2.2.1)
    ∧ (∀ s w pc, InvServer s → PCInv pc →
        InvServer (stopOnePlugin fuel s w pc).1
        ∧ PCInv (stopOnePlugin fuel s w pc).2.2.1) := by
  induction fuel with
  | zero =>
      exact ⟨fun s w h => h, fun s w k h => h, fun s w t h => h,
        fun s w gs tl h => h, fun s w lv h => h,
        fun s w cs h hcs => ⟨h, hcs⟩, fun s w pc h hpc => ⟨h, hpc⟩,
        fun s w h => h, fun s w gs h => h, fun s w lv h => h,
        fun s w cs h hcs => ⟨h, hcs⟩, fun s w pc h hpc => ⟨h, hpc⟩⟩
  | succ n ih =>
      obtain ⟨ihStart, ihOnly, ihInternal, ihLevels, ihPlugF, ihPlugGo,
        ihPlugOne, ihStop, ihStopLevels, ihStopPlugF, ihStopPlugGo,
        ihStopPlugOne⟩ := ih
      have hStart : ∀ s w, InvServer s → InvServer (startF (n + 1) s w).1 :=
        fun s w h => ihInternal s w none h
      have hOnly : ∀ s w k, InvServer s → InvServer (onlyF (n + 1) s w k).1 := by
        intro s w k h
        have hint := ihInternal s w (some k) h
        simp only [onlyF]
        split
        · exact h
        · split
          · exact h
          · split
            · rename_i s1 w1 e heq
              rw [heq] at hint
              exact hint
            · rename_i s1 w1 heq
              rw [heq] at hint
              exact hint
      have hInternal : ∀ s w t, InvServer s →
          InvServer (startInternalF (n + 1) s w t).1 := by
        intro s w t h
        have hpf := ihPlugF s w (-1) h
        simp only [startInternalF]
        split
        · rename_i s1 w1 e heq
          rw [heq] at hpf
          exact hpf
        · rename_i s1 w1 heq
          rw [heq] at hpf
          exact ihLevels _ _ _ _ hpf
      have hLevels : ∀ s w gs tl, InvServer s →
          InvServer (startLevelsGo (n + 1) s w gs tl).1 := by
        intro s w gs tl h
        cases gs with
        | nil => exact h
        | cons g rest =>
            obtain ⟨lv, ks⟩ := g
            have hs1 : InvServer (s.withMap
                (runStartLevel s.config.parallelStartGroups ks s.map w).1) :=
              h.withMap (runStartLevel_InvMap _ _ _ _ h.map_inv)
            simp only [startLevelsGo]
            split
            · exact hs1
            · split
              · exact ihLevels _ _ rest tl hs1
              · split
                · rename_i s2 w2 e heq
                  have hx := ihPlugF _
                    (runStartLevel s.config.parallelStartGroups ks s.map w).2.1 lv hs1
                  rw [heq] at hx
                  exact hx
                · rename_i s2 w2 heq
                  have hx := ihPlugF _
                    (runStartLevel s.config.parallelStartGroups ks s.map w).2.1 lv hs1
                  rw [heq] at hx
                  exact ihLevels _ _ rest tl hx
      have hPlugF : ∀ s w lv, InvServer s →
          InvServer (startPluginsF (n + 1) s w lv).1 := by
        intro s w lv h
        simp only [startPluginsF]
        split
        · exact h
        · rename_i bucket heq
          have hb : PCsInv bucket := PluginsInv_pluginsGet h.plugins_inv heq
          have hgo := ihPlugGo s w bucket h hb
          exact hgo.1.withPlugins (PluginsInv_pluginsSet hgo.1.plugins_inv lv hgo.2)
      have hPlugGo : ∀ s w cs, InvServer s → PCsInv cs →
          InvServer (startPluginsGo (n + 1) s w cs).1
          ∧ PCsInv (startPluginsGo (n + 1) s w cs).2.2.1 := by
        intro s w cs h hcs
        cases cs with
        | nil => exact ⟨h, hcs⟩
        | cons pc rest =>
            have hone := ihPlugOne s w pc h (hcs pc (List.mem_cons_self _ _))
            have hrest : PCsInv rest := fun q hq => hcs q (List.mem_cons_of_mem _ hq)
            simp only [startPluginsGo]
            split
            · rename_i s1 w1 pc2 e heq
              rw [heq] at hone
              exact ⟨hone.1, PCsInv_cons hone.2 hrest⟩
            · rename_i s1 w1 pc2 heq
              rw [heq] at hone
              have hgo := ihPlugGo s1 w1 rest hone.1 hrest
              exact ⟨hgo.1, PCsInv_cons hone.2 hgo.2⟩
      have hPlugOne : ∀ s w pc, InvServer s → PCInv pc →
          InvServer (startOnePlugin (n + 1) s w pc).1
          ∧ PCInv (startOnePlugin (n + 1) s w pc).2.2.1 := by
        intro s w pc h hpc
        simp only [startOnePlugin]
        split
        · exact ⟨h, hpc⟩
        · split
          · exact ⟨h, PCInv_withServer_some hpc (InvServer_materializedSub hpc s)⟩
          · have hsubF := ihStart (materializedSub s pc) w
              (InvServer_materializedSub hpc s)
            split
            · rename_i sub1 w1 e heq
              rw [heq] at hsubF
              exact ⟨h, PCInv_withServer_some hpc hsubF⟩
            · rename_i sub1 w1 heq
              rw [heq] at hsubF
              exact ⟨h.withMap (InvMap_mergeInto h.map_inv hsubF.map_inv),
                PCInv_withServer_some hpc hsubF⟩
      have hStop : ∀ s w, InvServer s → InvServer (stopF (n + 1) s w).1 := by
        intro s w h
        have hlv := ihStopLevels s w
          (groupByLevel ((s.map.filter fun kc =>
            kc.2.serverSymbol = s.symbol).reverse)) h
        simp only [stopF]
        split
        · rename_i s1 w1 e dur heq
          rw [heq] at hlv
          exact hlv
        · rename_i s1 w1 dur heq
          rw [heq] at hlv
          exact ihStopPlugF s1 w1 (-1) hlv
      have hStopLevels : ∀ s w gs, InvServer s →
          InvServer (stopLevelsGo (n + 1) s w gs).1 := by
        intro s w gs h
        cases gs with
        | nil => exact h
        | cons g rest =>
            obtain ⟨lv, ks⟩ := g
            have hpf := ihStopPlugF s w lv h
            simp only [stopLevelsGo]
            split
            · rename_i s1 w1 e dur heq
              rw [heq] at hpf
              exact hpf
            · rename_i s1 w1 dur heq
              rw [heq] at hpf
              have hs2 : InvServer ((s1, w1, (none : Option String), dur).1.withMap
                  (runStopLevel (s1, w1, (none : Option String), dur).1.config.parallelStopGroups
                    ks (s1, w1, (none : Option String), dur).1.map w1).1) :=
                hpf.withMap (runStopLevel_InvMap _ _ _ _ hpf.map_inv)
              split
              · exact hs2
              · exact ihStopLevels _ _ rest hs2
      have hStopPlugF : ∀ s w lv, InvServer s →
          InvServer (stopPluginsF (n + 1) s w lv).1 := by
        intro s w lv h
        simp only [stopPluginsF]
        split
        · exact h
        · rename_i bucket heq
          have hb : PCsInv bucket := PluginsInv_pluginsGet h.plugins_inv heq
          have hgo := ihStopPlugGo s w bucket.reverse h (PCsInv_reverse hb)
          exact hgo.1.withPlugins
            (PluginsInv_pluginsSet hgo.1.plugins_inv lv (PCsInv_reverse hgo.2))
      have hStopPlugGo : ∀ s w cs, InvServer s → PCsInv cs →
          InvServer (stopPluginsGo (n + 1) s w cs).1
          ∧ PCsInv (stopPluginsGo (n + 1) s w cs).2.2.1 := by
        intro s w cs h hcs
        cases cs with
        | nil => exact ⟨h, hcs⟩
        | cons pc rest =>
            have hone := ihStopPlugOne s w pc h (hcs pc (List.mem_cons_self _ _))
            have hrest : PCsInv rest := fun q hq => hcs q (List.mem_cons_of_mem _ hq)
            simp only [stopPluginsGo]
            split
            · rename_i s1 w1 pc2 e dur heq
              rw [heq] at hone
              exact ⟨hone.1, PCsInv_cons hone.2 hrest⟩
            · rename_i s1 w1 pc2 dur heq
              rw [heq] at hone
              have hgo := ihStopPlugGo s1 w1 rest hone.1 hrest
              exact ⟨hgo.1, PCsInv_cons hone.2 hgo.2⟩
      have hStopPlugOne : ∀ s w pc, InvServer s → PCInv pc →
          InvServer (stopOnePlugin (n + 1) s w pc).1
          ∧ PCInv (stopOnePlugin (n + 1) s w pc).2.2.1 := by
        intro s w pc h hpc
        simp only [stopOnePlugin]
        split
        · exact ⟨h, hpc⟩
        · rename_i sub heq
          have hsF := ihStop sub w (hpc.2 sub heq)
          split
          · rename_i sub1 w1 e dur heq2
            rw [heq2] at hsF
            exact ⟨h, PCInv_withServer_some hpc hsF⟩
          · rename_i sub1 w1 dur heq2
            rw [heq2] at hsF
            exact ⟨h.withMap (InvMap_deleteAllFrom _ h.map_inv),
              PCInv_withServer_none hpc⟩
      exact ⟨hStart, hOnly, hInternal, hLevels, hPlugF, hPlugGo, hPlugOne,
        hStop, hStopLevels, hStopPlugF, hStopPlugGo, hStopPlugOne⟩

/-- C7: instance presence tracks the running flag.  The presence-iff-up
invariant of every container (`InvC`, recursively through plugins via
`InvServer`) is preserved by `start()`, `stop()` and `only()` at any fuel;
under the invariant every registered entry has `value.isSome = up`;
`startService` materializes the instance and raises the flag while keeping
the init and destroy functions (the definition persists); `stopService`
clears the instance and the flag while keeping the definition, so a
restart is possible; and a definition with no destroyer, or one whose
instance is absent, is skipped silently (`stopService` returns without
touching the world). -/
theorem c7_instance_presence_iff_running :
    (∀ fuel s w, InvServer s →
        InvServer (startF fuel s w).1
        ∧ InvServer (stopF fuel s w).1
        ∧ ∀ k, InvServer (onlyF fuel s w k).1)
    ∧ (∀ s k c, InvServer s → mapGet s.map k = some c → c.value.isSome = c.up)
    ∧ (∀ w c v,
        (completeStart w c v).2.value = some v
        ∧ (completeStart w c v).2.up = true
        ∧ (completeStart w c v).2.init = c.init
        ∧ (completeStart w c v).2.destroy = c.destroy)
    ∧ (∀ w c,
        (stopCleanup w c).2.value = none
        ∧ (stopCleanup w c).2.up = false
        ∧ (stopCleanup w c).2.init = c.init
        ∧ (stopCleanup w c).2.destroy = c.destroy)
    ∧ (∀ w c, c.destroy = none ∨ c.value = none →
        invokeStop w c = (w, StopOutcome.skip)) := by
  refine ⟨?_, ?_, ?_, ?_, ?_⟩
  · intro fuel s w h
    obtain ⟨h1, h2, _, _, _, _, _, h8, _⟩ := engineInv fuel
    exact ⟨h1 s w h, h8 s w h, fun k => h2 s w k h⟩
  · intro s k c h hk
    exact h.map_inv (k, c) (mem_of_mapGet_eq_some s.map k c hk)
  · intro w c v
    rw [completeStart_container]
    exact ⟨rfl, rfl, rfl, rfl⟩
  · intro w c
    rw [stopCleanup_container]
    exact ⟨rfl, rfl, rfl, rfl⟩
  · intro w c hc
    rcases hc with hd | hv
    · simp [invokeStop, hd]
    · cases hd2 : c.destroy with
      | none => simp [invokeStop, hd2]
      | some d => simp [invokeStop, hd2, hv]
